import Mathlib

/-!
Verification development for the japanhouse scraping pipeline.

The definitions below are a shallow embedding of the Python sources:
  * `src/scrapers/common/base_scraper.py`  (`BaseScraper.clean_data`,
    `BaseScraper._extract_numeric_price`)
  * `src/scrapers/scrape_to_supabase.py`   (`process_images`,
    `get_existing_listing_ids`, the update-mode classification loop of
    `run_scrapers_and_upload`)
  * `src/scrapers/common/db_connector.py`  (`SupabaseConnector.save_listings`)
  * `src/scrapers/sites/homes.py` and `src/scrapers/sites/akiyamart.py`
    (the listing-extraction loops).

Python dictionaries are modelled as insertion-ordered association lists with
string keys; Python values appearing in listing records are modelled by the
inductive type `PyVal` (strings, ints, None, lists of strings, booleans --
the only shapes this code produces).
-/

set_option maxRecDepth 100000

namespace JapanHouse

/-- Model of the Python values that occur in listing records. -/
inductive PyVal where
  | vstr (s : String)
  | vint (n : Int)
  | vnull
  | vlistS (xs : List String)
  | vbool (b : Bool)
deriving DecidableEq, Repr

open PyVal

/-- A Python dict with string keys: insertion-ordered association list.
Keys are unique in every dict the pipeline builds. -/
abbrev Dict := List (String × PyVal)

/-- `k in d` (Python key membership). -/
def dmem (d : Dict) (k : String) : Bool :=
  d.any (fun kv => kv.1 == k)

/-- `d.get(k)` (Python), `none` when the key is absent. -/
def dget (d : Dict) (k : String) : Option PyVal :=
  match d.find? (fun kv => kv.1 == k) with
  | some kv => some kv.2
  | none => none

/-- `d[k] = v` (Python): replace the value at the first occurrence of `k`,
or append `(k, v)` when `k` is absent (insertion order preserved). -/
def dset (d : Dict) (k : String) (v : PyVal) : Dict :=
  match d with
  | [] => [(k, v)]
  | kv :: t => if kv.1 == k then (k, v) :: t else kv :: dset t k v

/-- `d[k]` (Python subscript).  Python raises `KeyError` on a missing key;
every access modelled with this helper is performed by the source only on
keys that are always present (`listing['source']` after `clean_data`,
`row['id']` of a selected column), so the absent case is unreachable and is
modelled as `None`. -/
def dsub (d : Dict) (k : String) : PyVal :=
  (dget d k).getD vnull

/-- Python truthiness of a value. -/
def pyTruthy : PyVal → Bool
  | vstr s => !(s == "")
  | vint n => !(n == 0)
  | vnull => false
  | vlistS xs => !xs.isEmpty
  | vbool b => b

/-- Python `str()` of a value, as used by the f-string
`f"{listing['source']}:{listing['source_id']}"`.  Lists render in `repr`
style (quotes around elements; escaping inside elements is not modelled --
no claim depends on rendering a list). -/
def pyStr : PyVal → String
  | vstr s => s
  | vint n => toString n
  | vnull => "None"
  | vlistS xs => "[" ++ String.intercalate ", " (xs.map (fun s => "'" ++ s ++ "'")) ++ "]"
  | vbool b => if b then "True" else "False"

/-- Substring test: Python `pat in s`. -/
def substrB (pat s : String) : Bool :=
  s.toList.tails.any (fun t => pat.toList.isPrefixOf t)

end JapanHouse

namespace JapanHouse

/-!
### `BaseScraper._extract_numeric_price` (base_scraper.py lines 106-130)

The Python source strips every character that is not a digit or a decimal
point (`re.sub(r'[^\d.]', '', price_str)`), returns `None` on an empty
remainder, and otherwise evaluates `int(float(numeric_str))`, turning a
`ValueError` into `None`.  Two behaviours of the interpreter matter and are
modelled exactly:

  * `float()` of a digits-and-dots string raises `ValueError` unless the
    string has at most one dot and at least one digit; its value is the
    IEEE-754 binary64 (double) nearest to the decimal value, ties to even,
    with overflow to `inf` past `2^1024`;
  * `int(inf)` raises `OverflowError`, which `_extract_numeric_price`
    catches neither (it catches only `ValueError`) nor does
    `clean_data` (it catches `ValueError`/`TypeError`), so it escapes.

`\d` is modelled on the ASCII digit range (non-ASCII Unicode digits behave
identically for every input considered here).
-/

/-- The characters `re.sub(r'[^\d.]', '', s)` keeps, in order. -/
def priceChars (s : String) : List Char :=
  s.toList.filter (fun c => c.isDigit || c == '.')

/-- Numeric value of a decimal digit character. -/
def digitVal (c : Char) : ℕ := c.toNat - '0'.toNat

/-- The number formed by reading a digit sequence positionally. -/
def natOfDigits (cs : List Char) : ℕ :=
  cs.foldl (fun a c => 10 * a + digitVal c) 0

/-- Split a digits-and-dots sequence at its first dot: integer part and
fractional part of the numeral. -/
def splitAtDot : List Char → List Char × List Char
  | [] => ([], [])
  | c :: t =>
    if c == '.' then ([], t)
    else
      let p := splitAtDot t
      (c :: p.1, p.2)

/-- `float()` accepts a digits-and-dots string iff it has at most one dot
and at least one digit (`"5."`, `".5"`, `"5"` parse; `"."`, `"1.2.3"`
raise `ValueError`). -/
def wellFormedFloat (cs : List Char) : Bool :=
  decide (cs.count '.' ≤ 1) && cs.any Char.isDigit

/-- Is `num / den ≥ 2^c`?  (`den > 0`.) -/
def gePow2 (num den : ℕ) (c : ℤ) : Bool :=
  if 0 ≤ c then den * 2 ^ c.toNat ≤ num else den ≤ num * 2 ^ (-c).toNat

/-- Floor of the base-2 logarithm, by structural recursion on a fuel bound
(correct whenever `n < 2^fuel`); structural so that concrete evaluations
reduce inside the kernel. -/
def log2F : ℕ → ℕ → ℕ
  | 0, _ => 0
  | _, 0 => 0
  | fuel + 1, n => if n < 2 then 0 else log2F fuel (n / 2) + 1

/-- Round the nonnegative rational `num / den` (`den > 0`) to the nearest
IEEE-754 binary64 value, ties to even, returned as `(m, p)` with value
`m·2^p` (unbounded above: values at or past `2^1024` are `inf`, decided by
`pyIntOfFloat`).  Subnormals are rounded at the fixed scale `2^-1074`.
`fuel` must exceed the bit lengths of `num` and `den`. -/
def roundBinary64 (fuel num den : ℕ) : ℕ × ℤ :=
  if num == 0 then (0, 0) else
    let a : ℤ := log2F fuel num
    let b : ℤ := log2F fuel den
    let k : ℤ := if gePow2 num den (a - b) then a - b else a - b - 1
    let p : ℤ := max (k - 52) (-1074)
    let n2 := num * 2 ^ (-p).toNat
    let d2 := den * 2 ^ p.toNat
    let m0 := n2 / d2
    let r := n2 % d2
    let m := if d2 < 2 * r || (2 * r == d2 && m0 % 2 == 1) then m0 + 1 else m0
    (m, p)

/-- Result of Python `int()` on a nonnegative float: a natural number, or
`OverflowError` on `inf`. -/
inductive FloatToInt where
  | fin (n : ℕ)
  | inf
deriving DecidableEq, Repr

/-- Python `int(f)` for the nonnegative float `f = m·2^p`: truncation
toward zero; `inf` when the rounded value reached `2^1024`. -/
def pyIntOfFloat (m : ℕ) (p : ℤ) : FloatToInt :=
  if 0 ≤ p then
    let v := m * 2 ^ p.toNat
    if 2 ^ 1024 ≤ v then .inf else .fin v
  else .fin (m / 2 ^ (-p).toNat)

/-- Outcome of `_extract_numeric_price`: an integer price, `None`, or an
uncaught `OverflowError`. -/
inductive PriceOut where
  | price (n : ℕ)
  | nullP
  | overflowErr
deriving DecidableEq, Repr

/-- `BaseScraper._extract_numeric_price` (base_scraper.py lines 106-130). -/
def extractNumericPrice (s : String) : PriceOut :=
  let numeric := priceChars s
  if numeric.isEmpty then .nullP
  else if !(wellFormedFloat numeric) then .nullP
  else
    let ip := (splitAtDot numeric).1
    let fp := (splitAtDot numeric).2
    let mp := roundBinary64 (4 * numeric.length + 8) (natOfDigits (ip ++ fp)) (10 ^ fp.length)
    match pyIntOfFloat mp.1 mp.2 with
    | .fin n => .price n
    | .inf => .overflowErr

example : extractNumericPrice "" = .nullP := by decide
example : extractNumericPrice "5000万円" = .price 5000 := by decide
example : extractNumericPrice "1.2.3" = .nullP := by decide
example : extractNumericPrice "123.45" = .price 123 := by decide

end JapanHouse

namespace JapanHouse

/-!
### `BaseScraper.clean_data` (base_scraper.py lines 46-88)

The cleaned record starts with `source`, `source_url` (from the raw `url`
key, default `""`), `scraped_at` (passed in here as `now`); a present
`price` key is parsed; the whitelisted standard fields are copied through;
every other key except `url`/`price` is copied under a `raw_` prefix.
`Except.error ()` models the `OverflowError` that escapes `clean_data`
(its `except (ValueError, TypeError)` does not catch it).
-/

/-- `standard_fields` of `clean_data`. -/
def standardFields : List String :=
  ["title", "description", "address", "size", "rooms",
   "bathrooms", "location", "coordinates", "images"]

/-- The `price` branch of `clean_data`: the entries it adds.  A string
price goes through `_extract_numeric_price` (whose internal `except`
already turned `ValueError` into `None`, so `price_raw` is *not* set on
that path); a non-string price makes `re.sub` raise `TypeError`, which
`clean_data` catches, setting `price = None` and `price_raw` to the
original value. -/
def pricePart : PyVal → Except Unit Dict
  | PyVal.vstr s =>
    match extractNumericPrice s with
    | .price n => .ok [("price", PyVal.vint n)]
    | .nullP => .ok [("price", PyVal.vnull)]
    | .overflowErr => .error ()
  | v => .ok [("price", PyVal.vnull), ("price_raw", v)]

/-- The `for field in standard_fields` copy loop of `clean_data`. -/
def stdFieldsLoop (c : Dict) (data : Dict) : Dict :=
  standardFields.foldl
    (fun c f =>
      match dget data f with
      | some v => dset c f v
      | none => c) c

/-- The `raw_`-prefix loop of `clean_data`: every data key not already a
cleaned key and not `url`/`price` is added as `raw_<key>`. -/
def rawPrefixLoop (c : Dict) (data : Dict) : Dict :=
  data.foldl
    (fun c kv =>
      if dmem c kv.1 || kv.1 == "url" || kv.1 == "price" then c
      else dset c ("raw_" ++ kv.1) kv.2) c

/-- `BaseScraper.clean_data` (base_scraper.py lines 46-88).  `name` is the
scraper's `self.name`; `now` stands for `datetime.now().isoformat()`. -/
def cleanData (name now : String) (data : Dict) : Except Unit Dict :=
  let c0 : Dict :=
    [("source", PyVal.vstr name),
     ("source_url", (dget data "url").getD (PyVal.vstr "")),
     ("scraped_at", PyVal.vstr now)]
  match dget data "price" with
  | none => .ok (rawPrefixLoop (stdFieldsLoop c0 data) data)
  | some v =>
    match pricePart v with
    | .error e => .error e
    | .ok pr => .ok (rawPrefixLoop (stdFieldsLoop (c0 ++ pr) data) data)

example :
    cleanData "homes" "T" [("url", PyVal.vstr "http://a/1"), ("price", PyVal.vstr "5000万円"), ("foo", PyVal.vstr "x")] =
      .ok [("source", PyVal.vstr "homes"), ("source_url", PyVal.vstr "http://a/1"),
           ("scraped_at", PyVal.vstr "T"), ("price", PyVal.vint 5000),
           ("raw_foo", PyVal.vstr "x")] := by rfl

/-!
### `process_images` (scrape_to_supabase.py lines 36-81)

First pass: drop URLs containing a skip pattern (case-insensitively) and
deduplicate while keeping the first occurrence of each truthy URL.
Second pass: rewrite each URL containing both `smallimg` and `file=` to
the first `file` query parameter when `parse_qs` finds one.
-/

/-- The `skip_pattern` list of `process_images`. -/
def skipPatterns : List String :=
  ["loading", "icon_", "blank.png", "spacer", ".gif",
   "utility/loading", "icon_visited", "icon_sokunyu"]

/-- Python `str.lower()`, modelled on the ASCII range (the skip patterns
are all ASCII, so non-ASCII case folding cannot change a match). -/
def asciiLower (s : String) : String :=
  String.mk (s.toList.map
    (fun c => if 'A' ≤ c && c ≤ 'Z' then Char.ofNat (c.toNat + 32) else c))

/-- `any(skip_pattern in img_url.lower() for skip_pattern in [...])`. -/
def hasSkipPattern (u : String) : Bool :=
  skipPatterns.any (fun p => substrB p (asciiLower u))

/-- The first loop of `process_images`: skip-pattern filter plus
first-seen deduplication of truthy URLs. -/
def firstPass (urls : List String) : List String :=
  urls.foldl
    (fun acc u =>
      if hasSkipPattern u then acc
      else if !(u == "") && !(acc.contains u) then acc ++ [u]
      else acc) []

/-- `urlparse(u).query`: the text after the first `?` that precedes the
fragment (the text after the first `#`). -/
def urlQuery (u : String) : List Char :=
  ((u.toList.takeWhile (fun c => c != '#')).dropWhile (fun c => c != '?')).drop 1

/-- Value of a hexadecimal digit (by character code: `0-9`, `a-f`, `A-F`),
`none` for other characters. -/
def hexVal (c : Char) : Option ℕ :=
  let n := c.toNat
  if 48 ≤ n && n ≤ 57 then some (n - 48)
  else if 97 ≤ n && n ≤ 102 then some (n - 87)
  else if 65 ≤ n && n ≤ 70 then some (n - 55)
  else none

/-- `urllib.parse.unquote_plus`: `+` becomes a space and `%XX` hex escapes
decode to the character of that byte value (multi-byte UTF-8 escape
sequences decode bytewise here; no input considered by a claim uses
them). -/
def unquotePlus : List Char → List Char
  | [] => []
  | '+' :: t => ' ' :: unquotePlus t
  | '%' :: a :: b :: t =>
    match hexVal a, hexVal b with
    | some x, some y => Char.ofNat (16 * x + y) :: unquotePlus t
    | _, _ => '%' :: unquotePlus (a :: b :: t)
  | c :: t => c :: unquotePlus t

/-- Python `str.split(sep)` for a one-character separator. -/
def splitOnChar (sep : Char) : List Char → List (List Char)
  | [] => [[]]
  | c :: t =>
    let r := splitOnChar sep t
    if c == sep then [] :: r
    else
      match r with
      | [] => [[c]]
      | h :: rest => (c :: h) :: rest

/-- `parse_qs(query)[key][0]` with default settings: fields split on `&`;
a field without `=`, an empty field, or a field with an empty raw value is
dropped (`keep_blank_values=False`); names and values are
`unquote_plus`-decoded; the first value listed for `key` is returned. -/
def parseQsFirst (key : String) (query : List Char) : Option String :=
  let fields := (splitOnChar '&' query).filterMap
    (fun f =>
      if f.any (fun c => c == '=') then
        let nm := f.takeWhile (fun c => c != '=')
        let vl := (f.dropWhile (fun c => c != '=')).drop 1
        if vl.isEmpty then none
        else some (String.mk (unquotePlus nm), String.mk (unquotePlus vl))
      else none)
  match fields.find? (fun kv => kv.1 == key) with
  | some kv => some kv.2
  | none => none

/-- The `file` query parameter of a `smallimg` wrapper URL
(`parse_qs(urlparse(img_url).query)['file'][0]`). -/
def fileParam (u : String) : Option String :=
  parseQsFirst "file" (urlQuery u)

/-- The per-URL substitution of the second loop of `process_images`:
a URL containing both `smallimg` and `file=` is replaced by its first
`file` query parameter when one resolves, otherwise kept. -/
def canonOne (u : String) : String :=
  if substrB "smallimg" u && substrB "file=" u then
    match fileParam u with
    | some orig => orig
    | none => u
  else u

/-- The second loop of `process_images` (`high_res_images`): one appended
URL per input URL. -/
def highResPass (urls : List String) : List String :=
  urls.foldl (fun acc u => acc ++ [canonOne u]) []

/-- `process_images` (scrape_to_supabase.py lines 36-81).  A listing whose
`images` key is absent or falsy is returned unchanged.  A truthy non-list
`images` value is never produced by the pipeline and is returned unchanged
here (Python would iterate a string's characters). -/
def processImages (listing : Dict) : Dict :=
  match dget listing "images" with
  | none => listing
  | some v =>
    if !(pyTruthy v) then listing
    else
      match v with
      | PyVal.vlistS urls =>
        let processed := firstPass urls
        let highRes := highResPass processed
        dset listing "images" (PyVal.vlistS (if !highRes.isEmpty then highRes else processed))
      | _ => listing

example :
    processImages [("images", PyVal.vlistS ["http://x/a.jpg", "http://p/smallimg?file=http://x/a.jpg"])] =
      [("images", PyVal.vlistS ["http://x/a.jpg", "http://x/a.jpg"])] := by decide

example :
    processImages [("images", PyVal.vlistS ["http://x/loading.gif", "http://x/b.jpg", "http://x/b.jpg"])] =
      [("images", PyVal.vlistS ["http://x/b.jpg"])] := by decide

end JapanHouse

namespace JapanHouse

/-!
### `get_existing_listing_ids` and the update-mode classification loop
(scrape_to_supabase.py lines 83-120 and 193-226)
-/

/-- One row of the `select("id,source_id,source,url")` snapshot.  `id` is
the stored integer row id; `source_id` and `url` are nullable text
columns; `source` is non-null for every row this pipeline wrote
(`clean_data` always sets it). -/
structure StoredRow where
  id : ℕ
  source : String
  source_id : Option String
  url : Option String
deriving DecidableEq, Repr

/-- Truthiness of an optional string (`None` and `""` are falsy). -/
def optTruthy : Option String → Bool
  | none => false
  | some s => !(s == "")

/-- The three lookup structures `get_existing_listing_ids` returns.  The
two `..._dict`s only ever hold `True`, so they are modelled by their key
sets (duplicate-free lists). -/
structure IdentityIndex where
  source_id_keys : List String
  url_keys : List String
  id_by_source_id : List (String × ℕ)
deriving DecidableEq, Repr

/-- Association-list update for the `id_by_source_id` dict. -/
def setNat (d : List (String × ℕ)) (k : String) (v : ℕ) : List (String × ℕ) :=
  match d with
  | [] => [(k, v)]
  | kv :: t => if kv.1 == k then (k, v) :: t else kv :: setNat t k v

/-- `d.get(k)` for the `id_by_source_id` dict. -/
def lookupNat (d : List (String × ℕ)) (k : String) : Option ℕ :=
  match d.find? (fun kv => kv.1 == k) with
  | some kv => some kv.2
  | none => none

/-- `get_existing_listing_ids` (scrape_to_supabase.py lines 83-120): one
pass over the snapshot rows.  Rows with a truthy `source_id` register the
key `f"{source}:{source_id}"` in `source_id_dict` and `id_by_source_id`;
rows with a truthy `url` register it in `url_dict`.  (The `except` branch
returns empty dicts, i.e. `buildIndex []`.) -/
def buildIndex (rows : List StoredRow) : IdentityIndex :=
  rows.foldl
    (fun idx row =>
      let idx1 :=
        if optTruthy row.source_id then
          let key := row.source ++ ":" ++ (row.source_id.getD "")
          { idx with
            source_id_keys :=
              if idx.source_id_keys.contains key then idx.source_id_keys
              else idx.source_id_keys ++ [key],
            id_by_source_id := setNat idx.id_by_source_id key row.id }
        else idx
      if optTruthy row.url then
        let u := row.url.getD ""
        { idx1 with
          url_keys := if idx1.url_keys.contains u then idx1.url_keys else idx1.url_keys ++ [u] }
      else idx1)
    ⟨[], [], []⟩

/-- The running state of the classification loop: the `new_listings` and
`update_listings` accumulators and the `total_skipped` counter. -/
structure ClassifyState where
  new_listings : List Dict
  update_listings : List Dict
  total_skipped : ℕ
deriving DecidableEq, Repr

/-- One iteration of the update-mode loop of `run_scrapers_and_upload`
(scrape_to_supabase.py lines 198-223), faithful to its control flow:
  * `is_duplicate`/`listing_id` from the `source_id` check (the id comes
    from `id_by_source_id.get(source_key)`);
  * a url check `'url' in listing and listing['url']` only when the first
    check missed (matching only string values against the url keys, as
    Python dict membership would);
  * duplicates go to `update_listings` (with `listing['id']` set) only
    when `update_existing` is set *and* `listing_id` is truthy (not
    `None`, not `0`), otherwise `total_skipped += 1`;
  * non-duplicates are appended to `new_listings`. -/
def classifyStep (idx : IdentityIndex) (update_existing : Bool)
    (st : ClassifyState) (listing : Dict) : ClassifyState :=
  let sidTruthy := dmem listing "source_id" && pyTruthy (dsub listing "source_id")
  let sourceKey := pyStr (dsub listing "source") ++ ":" ++ pyStr (dsub listing "source_id")
  let hit := sidTruthy && idx.source_id_keys.contains sourceKey
  let listingId : Option ℕ := if hit then lookupNat idx.id_by_source_id sourceKey else none
  let urlVal := dsub listing "url"
  let urlMatch :=
    match urlVal with
    | PyVal.vstr u => idx.url_keys.contains u
    | _ => false
  let isDup := hit || (!hit && dmem listing "url" && pyTruthy urlVal && urlMatch)
  if isDup then
    match listingId with
    | some i =>
      if update_existing && !(i == 0) then
        { st with update_listings := st.update_listings ++ [dset listing "id" (PyVal.vint i)] }
      else { st with total_skipped := st.total_skipped + 1 }
    | none => { st with total_skipped := st.total_skipped + 1 }
  else { st with new_listings := st.new_listings ++ [listing] }

/-- The classification phase of `run_scrapers_and_upload` (lines 193-226):
with `update_mode` the loop folds `classifyStep` over the processed
results; without it the loop never runs and every listing stays in
`processed_results`, the set uploaded as new. -/
def runClassification (idx : IdentityIndex) (update_mode update_existing : Bool)
    (listings : List Dict) : ClassifyState :=
  if update_mode then listings.foldl (classifyStep idx update_existing) ⟨[], [], 0⟩
  else ⟨listings, [], 0⟩

end JapanHouse

namespace JapanHouse

/-!
### `SupabaseConnector.save_listings` (db_connector.py lines 75-172)
-/

/-- The `valid_fields` whitelist of `save_listings`. -/
def validFields : List String :=
  ["id", "title", "url", "price", "location", "description",
   "images", "features", "size", "layout", "year_built",
   "building_type", "access", "source", "property_type",
   "created_at", "updated_at", "initial_fees"]

/-- Concatenate with a separator. -/
def joinSep (sep : String) : List String → String
  | [] => ""
  | [x] => x
  | x :: t => x ++ sep ++ joinSep sep t

/-- `json.dumps` of a list of strings (escaping inside elements is not
modelled; no claim depends on the rendered text). -/
def jsonOfList (xs : List String) : String :=
  "[" ++ joinSep ", " (xs.map (fun s => "\"" ++ s ++ "\"")) ++ "]"

/-- `json.dumps(value)` applied to complex values (the pipeline's only
complex values are lists of strings). -/
def serializeVal : PyVal → PyVal
  | PyVal.vlistS xs => PyVal.vstr (jsonOfList xs)
  | v => v

/-- The per-listing formatting of `save_listings` (db_connector.py lines
107-126): add `created_at` when absent, then keep only whitelisted fields
(in listing order), JSON-encoding complex values. -/
def formatRow (now : String) (listing : Dict) : Dict :=
  let l := if dmem listing "created_at" then listing
           else dset listing "created_at" (PyVal.vstr now)
  l.foldl
    (fun acc kv =>
      if validFields.contains kv.1 then dset acc kv.1 (serializeVal kv.2) else acc) []

/-- `all_keys`: the union of the keys of all formatted rows.  The Python
value is an unordered set; it is modelled as a first-seen-ordered
duplicate-free list and only its membership is ever used. -/
def unionKeys (rows : List Dict) : List String :=
  rows.foldl
    (fun acc r =>
      r.foldl (fun acc kv => if acc.contains kv.1 then acc else acc ++ [kv.1]) acc) []

/-- Null-padding of one row: every key of `allKeys` missing from the row
is set to `None` (db_connector.py lines 136-140). -/
def padRow (allKeys : List String) (r : Dict) : Dict :=
  allKeys.foldl (fun acc k => if dmem acc k then acc else dset acc k PyVal.vnull) r

/-- The column-set uniformisation step of `save_listings`. -/
def padAll (rows : List Dict) : List Dict :=
  rows.map (padRow (unionKeys rows))

/-- The batches `formatted_listings[i:i+batch_size]`, `batch_size = 100`,
in order; structural recursion on a fuel bound (`rows.length` always
suffices since every step consumes at least one row). -/
def chunksF : ℕ → List Dict → List (List Dict)
  | 0, _ => []
  | _, [] => []
  | fuel + 1, rows => rows.take 100 :: chunksF fuel (rows.drop 100)

/-- The batches `formatted_listings[i:i+100]` of the upload loop. -/
def chunks100 (rows : List Dict) : List (List Dict) :=
  chunksF rows.length rows

/-- The chunk-upload loop (db_connector.py lines 142-168).  `upsert`
abstracts `client.table(table_name).upsert(batch).execute()`: `false`
stands for a raised exception or an `error` field on the response, either
of which makes `save_listings` return `False` at once.  The second
component lists the chunks actually transmitted, in order. -/
def sendLoop (upsert : List Dict → Bool) : List (List Dict) → Bool × List (List Dict)
  | [] => (true, [])
  | c :: t =>
    if upsert c then
      let r := sendLoop upsert t
      (r.1, c :: r.2)
    else (false, [c])

/-- `SupabaseConnector.save_listings` (db_connector.py lines 75-172), the
Supabase client abstracted: `hasClient` is the truthiness of
`self.client`, `upsert table batch` the outcome of one batch upsert.
Returns the boolean result paired with the chunks transmitted. -/
def saveListings (hasClient : Bool) (upsert : String → List Dict → Bool)
    (now tableName : String) (listings : List Dict) : Bool × List (List Dict) :=
  if !hasClient then (false, [])
  else if listings.isEmpty then (false, [])
  else
    let formatted := padAll (listings.map (formatRow now))
    sendLoop (upsert tableName) (chunks100 formatted)

end JapanHouse

namespace JapanHouse

/-!
### Site extractors (homes.py, akiyamart.py)

The extraction loops are modelled over the *outcomes* of their CSS
queries: an element/card is a structure holding, for each `select_one` /
`select` the loop body performs, what it returned.  `urllib.parse.urljoin`
applied to `self.base_url` is abstracted as a function parameter `join`
(no claim depends on a joined URL's value).
-/

/-- Does `s` end with `pat` (Python `str.endswith`)? -/
def endsWithB (pat s : String) : Bool :=
  pat.toList.isSuffixOf s.toList

/-- An `<img>` tag: its `data-src` and `src` attributes. -/
structure ImgTag where
  dataSrc : Option String
  src : Option String
deriving DecidableEq, Repr

/-- The thumbnail-image loop of the homes rent branch (homes.py lines
228-237): a `data-src` value is kept unless it ends in `.gif` or contains
`loading`/`icon`; otherwise a `src` value is kept unless it ends in
`blank.png` or contains `.gif`/`loading`/`icon`. -/
def homesThumbFilter (imgs : List ImgTag) : List String :=
  imgs.foldl
    (fun acc img =>
      match img.dataSrc with
      | some s =>
        if !(endsWithB ".gif" s || substrB "loading" s || substrB "icon" s) then acc ++ [s]
        else acc
      | none =>
        match img.src with
        | some s =>
          if !(endsWithB "blank.png" s || substrB ".gif" s || substrB "loading" s || substrB "icon" s) then acc ++ [s]
          else acc
        | none => acc) []

/-- One element of `listing_elements` in the rent branch of
`HomesScraper._extract_listings` (homes.py lines 169-254):
  * `anchor`: `select_one('h2.devMansionTitle a')` -- `none` when nothing
    matched, otherwise its optional `href` attribute and stripped text;
  * `priceText` … `sizeText`: stripped text of the respective
    `select_one`, when it matched;
  * `featureTexts`: stripped texts of `select('ul.articleTagList li')`;
  * `detailHref`: `href` of `select_one('a[href*="detail"]')`;
  * `thumbImgs`: the `select('.mainvisual img')` tags;
  * `highResFetch`: outcome of `_fetch_high_res_images` -- `none` models
    a raised exception (caught at lines 245-246, thumbnails kept),
    `some []` an empty result (thumbnails kept), `some l` with `l ≠ []` a
    result that replaces the images; ignored without a `detailHref`. -/
structure HomesRentElem where
  anchor : Option (Option String × String)
  priceText : Option String
  feesText : Option String
  locationText : Option String
  accessText : Option String
  layoutText : Option String
  sizeText : Option String
  featureTexts : List String
  detailHref : Option String
  thumbImgs : List ImgTag
  highResFetch : Option (List String)
deriving DecidableEq, Repr

/-- The `listing_data` dict built by the rent-branch loop body (homes.py
lines 171-246), in assignment order. -/
def homesRentRaw (join : String → String) (e : HomesRentElem) : Dict :=
  let d1 : Dict :=
    match e.anchor with
    | some (some href, _) => [("url", PyVal.vstr (join href))]
    | _ => [("url", PyVal.vnull)]
  let d2 :=
    match e.anchor with
    | some (_, txt) => dset d1 "title" (PyVal.vstr txt)
    | none => d1
  let d3 := match e.priceText with | some t => dset d2 "price" (PyVal.vstr t) | none => d2
  let d4 := match e.feesText with | some t => dset d3 "initial_fees" (PyVal.vstr t) | none => d3
  let d5 := match e.locationText with | some t => dset d4 "location" (PyVal.vstr t) | none => d4
  let d6 := match e.accessText with | some t => dset d5 "access" (PyVal.vstr t) | none => d5
  let d7 := match e.layoutText with | some t => dset d6 "layout" (PyVal.vstr t) | none => d6
  let d8 := match e.sizeText with | some t => dset d7 "size" (PyVal.vstr t) | none => d7
  let d9 :=
    if e.featureTexts.isEmpty then d8
    else dset d8 "features" (PyVal.vlistS e.featureTexts)
  let d10 := match e.detailHref with | some h => dset d9 "detail_url" (PyVal.vstr (join h)) | none => d9
  let d11 := dset d10 "images" (PyVal.vlistS (homesThumbFilter e.thumbImgs))
  match e.detailHref, e.highResFetch with
  | some _, some l => if !l.isEmpty then dset d11 "images" (PyVal.vlistS l) else d11
  | _, _ => d11

/-- The rent branch of `HomesScraper._extract_listings` (homes.py lines
169-254): every element's record is cleaned and appended -- the loop has
no title/price/location guard.  An exception escaping `clean_data` is
caught by the per-element `except` (lines 252-254) and skips the element. -/
def homesRentExtract (join : String → String) (now : String)
    (elems : List HomesRentElem) : List Dict :=
  elems.foldl
    (fun acc e =>
      match cleanData "homes" now (homesRentRaw join e) with
      | .ok c => acc ++ [c]
      | .error _ => acc) []

/-- `img.get('src') or img.get('data-src')` (Python `or`: the `src` value
unless it is `None` or empty, else the `data-src` value). -/
def attrOr (i : ImgTag) : Option String :=
  match i.src with
  | some s => if !(s == "") then some s else i.dataSrc
  | none => i.dataSrc

/-- One candidate container of `HomesScraper._fallback_extract_listings`
(homes.py lines 390-446):
  * `chosenHref`: the `href` of the first `a[href]` whose href contains
    `detail`, `property` or `bukken`; `none` makes the loop `continue`
    before anything is retained;
  * `titleText`: `get_text(strip=True)` of the first heading-like match
    (possibly the empty string), `none` when nothing matched;
  * `priceMatch`: the `\d+[,\d]*万円` regex match from the first
    price-like element, when the element list was non-empty and the regex
    matched;
  * `locationText`: text of the first address/location-classed match;
  * `featureTexts`: texts of the first five feature-like matches, when the
    selector matched at all;
  * `imgs`: the `container.select('img')` tags. -/
structure HomesFallbackItem where
  chosenHref : Option String
  titleText : Option String
  priceMatch : Option String
  locationText : Option String
  featureTexts : Option (List String)
  imgs : List ImgTag
deriving DecidableEq, Repr

/-- The `listing_data` dict of one fallback container (homes.py lines
392-440), given its qualifying href. -/
def homesFallbackRaw (join : String → String) (h : String) (c : HomesFallbackItem) : Dict :=
  let d1 : Dict := [("url", PyVal.vstr (join h))]
  let d2 := match c.titleText with | some t => dset d1 "title" (PyVal.vstr t) | none => d1
  let d3 := match c.priceMatch with | some p => dset d2 "price" (PyVal.vstr p) | none => d2
  let d4 := match c.locationText with | some l => dset d3 "location" (PyVal.vstr l) | none => d3
  let d5 := match c.featureTexts with | some fs => dset d4 "features" (PyVal.vlistS fs) | none => d4
  let imgSrcs := c.imgs.foldl
    (fun acc i =>
      match attrOr i with
      | some s =>
        if !(s == "") && !(endsWithB "blank.png" s || substrB "spacer" s) then acc ++ [s]
        else acc
      | none => acc) []
  dset d5 "images" (PyVal.vlistS imgSrcs)

/-- `HomesScraper._fallback_extract_listings` main loop (homes.py lines
390-450): skip containers without a qualifying link; retain a record only
when a `price` or `title` key was set (line 443 -- key *presence*, an
empty extracted title qualifies); exceptions skip the container. -/
def homesFallbackExtract (join : String → String) (now : String)
    (items : List HomesFallbackItem) : List Dict :=
  items.foldl
    (fun acc c =>
      match c.chosenHref with
      | none => acc
      | some h =>
        let raw := homesFallbackRaw join h c
        if dmem raw "price" || dmem raw "title" then
          match cleanData "homes" now raw with
          | .ok d => acc ++ [d]
          | .error _ => acc
        else acc) []

/-- One property card of `AkiyaMartScraper._extract_listings`
(akiyamart.py lines 259-330), modelled by the outcome of each selector
cascade: `titleText`/`priceText`/`locationText` are the first non-empty
stripped text found by the respective selector list (the cascades at
lines 263-282 only accept truthy text); `sizeText`/`roomsText` the
corresponding outcomes of the details cascade; `linkHref` the `href` of
the first link selector carrying one; `imageSrcs` the src-or-data-src
list of the first image selector that matched, when any did. -/
structure AkiyaCard where
  titleText : Option String
  priceText : Option String
  locationText : Option String
  sizeText : Option String
  roomsText : Option String
  linkHref : Option String
  imageSrcs : Option (List String)
deriving DecidableEq, Repr

/-- The `listing_data` dict of one akiyamart card (akiyamart.py lines
261-319), in assignment order. -/
def akiyaRaw (join : String → String) (c : AkiyaCard) : Dict :=
  let d1 : Dict := match c.titleText with | some t => [("title", PyVal.vstr t)] | none => []
  let d2 := match c.priceText with | some t => dset d1 "price" (PyVal.vstr t) | none => d1
  let d3 := match c.locationText with | some t => dset d2 "location" (PyVal.vstr t) | none => d2
  let d4 := match c.sizeText with | some t => dset d3 "size" (PyVal.vstr t) | none => d3
  let d5 := match c.roomsText with | some t => dset d4 "rooms" (PyVal.vstr t) | none => d4
  let d6 := match c.linkHref with | some h => dset d5 "url" (PyVal.vstr (join h)) | none => d5
  match c.imageSrcs with
  | some l => dset d6 "images" (PyVal.vlistS l)
  | none => d6

/-- The retention guard of akiyamart (line 322):
`listing_data.get("title") or listing_data.get("price") or
listing_data.get("location")`. -/
def akiyaGuard (raw : Dict) : Bool :=
  pyTruthy (dsub raw "title") || pyTruthy (dsub raw "price") || pyTruthy (dsub raw "location")

/-- `AkiyaMartScraper._extract_listings` main loop (akiyamart.py lines
259-330): a card's record is cleaned and appended only when the guard
holds; exceptions skip the card. -/
def akiyaExtract (join : String → String) (now : String)
    (cards : List AkiyaCard) : List Dict :=
  cards.foldl
    (fun acc c =>
      let raw := akiyaRaw join c
      if akiyaGuard raw then
        match cleanData "akiyamart" now raw with
        | .ok d => acc ++ [d]
        | .error _ => acc
      else acc) []

end JapanHouse

namespace JapanHouse

/-!
### Derived notions used by the statements below
-/

/-- The number formed by reading the digit characters of `s` positionally
in order -- the spec's bound for the extracted price. -/
def posReading (s : String) : ℕ :=
  natOfDigits (s.toList.filter Char.isDigit)

/-- Does the akiyamart loop retain this card?  (Guard of line 322 applied
to the card's `listing_data`.) -/
def akiyaKeep (join : String → String) (c : AkiyaCard) : Bool :=
  akiyaGuard (akiyaRaw join c)

/-- Does the homes fallback loop retain this container?  (The qualifying
link of line 403 and the price-or-title presence guard of line 443.) -/
def homesFallbackKeep (join : String → String) (c : HomesFallbackItem) : Bool :=
  match c.chosenHref with
  | none => false
  | some h =>
    dmem (homesFallbackRaw join h c) "price" || dmem (homesFallbackRaw join h c) "title"

/-- The rows `save_listings` transmits for a batch: whitelist-filtered,
serialized, null-padded to the union column set. -/
def formattedRows (now : String) (listings : List Dict) : List Dict :=
  padAll (listings.map (formatRow now))

/-- A canonical image URL in the sense of the spec's idempotence property:
a non-empty URL with no placeholder pattern and no smallimg proxy-wrapper
markers. -/
def canonicalUrl (u : String) : Prop :=
  u ≠ "" ∧ hasSkipPattern u = false ∧ ¬(substrB "smallimg" u = true ∧ substrB "file=" u = true)

instance (u : String) : Decidable (canonicalUrl u) := by
  unfold canonicalUrl
  infer_instance

/-! ### Basic lemmas about the dict model -/

theorem dget_cons (kv : String × PyVal) (t : Dict) (k : String) :
    dget (kv :: t) k = if kv.1 == k then some kv.2 else dget t k := by
  simp only [dget, List.find?]
  cases h : kv.1 == k <;> simp [h]

theorem dmem_cons (kv : String × PyVal) (t : Dict) (k : String) :
    dmem (kv :: t) k = (kv.1 == k || dmem t k) := by
  simp [dmem, List.any_cons]

theorem dget_dset_self (d : Dict) (k : String) (v : PyVal) :
    dget (dset d k v) k = some v := by
  induction d with
  | nil => simp [dset, dget, List.find?]
  | cons kv t ih =>
    by_cases h : kv.1 = k
    · simp [dset, h, dget_cons]
    · have hb : (kv.1 == k) = false := by simp [h]
      simp [dset, hb, dget_cons, ih]

theorem dget_dset_ne (d : Dict) (k' k : String) (v : PyVal) (h : k' ≠ k) :
    dget (dset d k' v) k = dget d k := by
  induction d with
  | nil =>
    have hb : (k' == k) = false := by simp [h]
    simp [dset, dget, List.find?, hb]
  | cons kv t ih =>
    by_cases h1 : kv.1 = k'
    · have hb : (kv.1 == k') = true := by simp [h1]
      have hbk : (k' == k) = false := by simp [h]
      have hbk2 : (kv.1 == k) = false := by simp [h1, h]
      simp [dset, hb, dget_cons, hbk, hbk2]
    · have hb : (kv.1 == k') = false := by simp [h1]
      simp [dset, hb, dget_cons, ih]

theorem dset_self (d : Dict) (k : String) (v : PyVal) (h : dget d k = some v) :
    dset d k v = d := by
  induction d with
  | nil => simp [dget, List.find?] at h
  | cons kv t ih =>
    rw [dget_cons] at h
    by_cases h1 : kv.1 = k
    · have hb : (kv.1 == k) = true := by simp [h1]
      rw [hb] at h
      simp only [if_true] at h
      have hkv : kv = (k, v) := by
        cases kv
        simp only [Option.some.injEq] at h
        simp at h1
        simp [h1, h]
      simp [dset, hb, hkv]
    · have hb : (kv.1 == k) = false := by simp [h1]
      rw [hb] at h
      simp only [Bool.false_eq_true, if_false] at h
      simp [dset, hb, ih h]

theorem dmem_dset (d : Dict) (k0 k : String) (v : PyVal) :
    dmem (dset d k0 v) k = (dmem d k || k0 == k) := by
  induction d with
  | nil => simp [dset, dmem]
  | cons kv t ih =>
    by_cases h1 : kv.1 = k0
    · have hb : (kv.1 == k0) = true := by simp [h1]
      subst h1
      cases h2 : kv.1 == k <;> simp [dset, hb, dmem_cons, h2]
    · have hb : (kv.1 == k0) = false := by simp [h1]
      cases h2 : kv.1 == k <;> simp [dset, hb, dmem_cons, h2, ih]

theorem dget_isSome_of_dmem (d : Dict) (k : String) (h : dmem d k = true) :
    ∃ v, dget d k = some v := by
  induction d with
  | nil => simp [dmem] at h
  | cons kv t ih =>
    rw [dmem_cons] at h
    rw [dget_cons]
    cases h2 : kv.1 == k
    · simp [h2] at h
      simp [h2]
      exact ih h
    · simp [h2]

theorem dmem_of_dget (d : Dict) (k : String) (v : PyVal) (h : dget d k = some v) :
    dmem d k = true := by
  induction d with
  | nil => simp [dget, List.find?] at h
  | cons kv t ih =>
    rw [dget_cons] at h
    rw [dmem_cons]
    cases h2 : kv.1 == k
    · simp [h2] at h
      simp [h2, ih h]
    · simp [h2]

end JapanHouse

namespace JapanHouse

/-! ### Lemmas about the chunked upload loop -/

theorem chunksF_join : ∀ (fuel : ℕ) (rows : List Dict), rows.length ≤ fuel →
    (chunksF fuel rows).flatten = rows := by
  intro fuel
  induction fuel with
  | zero =>
    intro rows h
    have : rows = [] := by
      cases rows with
      | nil => rfl
      | cons r t => simp at h
    subst this
    rfl
  | succ fuel ih =>
    intro rows h
    cases rows with
    | nil => rfl
    | cons r t =>
      show ((r :: t).take 100 :: chunksF fuel ((r :: t).drop 100)).flatten = r :: t
      rw [List.flatten_cons,
        ih ((r :: t).drop 100) (by simp only [List.length_drop, List.length_cons] at h ⊢; omega)]
      exact List.take_append_drop 100 (r :: t)

theorem chunksF_length_le : ∀ (fuel : ℕ) (rows : List Dict) (c : List Dict),
    c ∈ chunksF fuel rows → c.length ≤ 100 := by
  intro fuel
  induction fuel with
  | zero => intro rows c h; simp [chunksF] at h
  | succ fuel ih =>
    intro rows c h
    cases rows with
    | nil => simp [chunksF] at h
    | cons r t =>
      rcases List.mem_cons.mp h with h1 | h1
      · subst h1
        simp [List.length_take]
      · exact ih _ _ h1

theorem chunksF_ne_nil : ∀ (fuel : ℕ) (rows : List Dict),
    rows ≠ [] → fuel ≠ 0 → chunksF fuel rows ≠ [] := by
  intro fuel rows h1 h2
  cases fuel with
  | zero => exact absurd rfl h2
  | succ fuel =>
    cases rows with
    | nil => exact absurd rfl h1
    | cons r t => simp [chunksF]

theorem chunksF_dropLast : ∀ (fuel : ℕ) (rows : List Dict),
    rows.length ≤ fuel →
    ∀ c ∈ (chunksF fuel rows).dropLast, c.length = 100 := by
  intro fuel
  induction fuel with
  | zero => intro rows _ c h; simp [chunksF] at h
  | succ fuel ih =>
    intro rows hlen c h
    cases rows with
    | nil => simp [chunksF] at h
    | cons r t =>
      replace h : c ∈ ((r :: t).take 100 :: chunksF fuel ((r :: t).drop 100)).dropLast := h
      by_cases hrest : chunksF fuel ((r :: t).drop 100) = []
      · rw [hrest] at h
        simp at h
      · rw [List.dropLast_cons_of_ne_nil hrest] at h
        rcases List.mem_cons.mp h with h1 | h1
        · subst h1
          have hdrop : (r :: t).drop 100 ≠ [] := by
            intro hd
            exact hrest (by rw [hd]; cases fuel <;> rfl)
          have hlt : 100 < (r :: t).length := by
            by_contra hc
            push_neg at hc
            exact hdrop (List.drop_eq_nil_of_le hc)
          simp only [List.length_cons] at hlt
          simp [List.length_take]
          omega
        · exact ih _ (by simp only [List.length_drop, List.length_cons] at hlen ⊢; omega) c h1

theorem sendLoop_all_true (upsert : List Dict → Bool) :
    ∀ cs : List (List Dict), (∀ c ∈ cs, upsert c = true) →
      sendLoop upsert cs = (true, cs) := by
  intro cs
  induction cs with
  | nil => intro _; rfl
  | cons c t ih =>
    intro h
    have hc : upsert c = true := h c (List.mem_cons_self c t)
    show (if upsert c then
      let r := sendLoop upsert t
      (r.1, c :: r.2) else (false, [c])) = (true, c :: t)
    rw [hc, if_pos rfl, ih (fun c' hc' => h c' (List.mem_cons_of_mem c hc'))]

theorem sendLoop_first_false (upsert : List Dict → Bool) :
    ∀ (cs : List (List Dict)) (i : ℕ) (hi : i < cs.length),
      upsert (cs.get ⟨i, hi⟩) = false →
      (∀ (j : ℕ) (hj : j < i), upsert (cs.get ⟨j, Nat.lt_trans hj hi⟩) = true) →
      sendLoop upsert cs = (false, cs.take (i + 1)) := by
  intro cs
  induction cs with
  | nil => intro i hi; simp at hi
  | cons c t ih =>
    intro i hi hfail hpre
    cases i with
    | zero =>
      have hc : upsert c = false := hfail
      show (if upsert c then
        let r := sendLoop upsert t
        (r.1, c :: r.2) else (false, [c])) = (false, (c :: t).take 1)
      rw [hc]
      rfl
    | succ i =>
      have hc : upsert c = true := hpre 0 (Nat.succ_pos i)
      have hi' : i < t.length := Nat.lt_of_succ_lt_succ hi
      have hfail' : upsert (t.get ⟨i, hi'⟩) = false := hfail
      have hpre' : ∀ (j : ℕ) (hj : j < i), upsert (t.get ⟨j, Nat.lt_trans hj hi'⟩) = true := by
        intro j hj
        exact hpre (j + 1) (Nat.succ_lt_succ hj)
      show (if upsert c then
        let r := sendLoop upsert t
        (r.1, c :: r.2) else (false, [c])) = (false, (c :: t).take (i + 2))
      rw [hc, if_pos rfl, ih i hi' hfail' hpre']
      rfl

end JapanHouse

namespace JapanHouse

/-- C10: calling `save_listings` with an empty list of listings performs
no store write (no chunk is transmitted) and returns `False`, for every
table name and every store behaviour -- an empty batch is reported as
failure, not trivial success (db_connector.py lines 90-92). -/
theorem claim_C10_empty_batch_false (upsert : String → List Dict → Bool)
    (now tableName : String) :
    saveListings true upsert now tableName [] = (false, []) := rfl

/-- C9: `save_listings` sends the padded rows in sequential chunks of 100
(their concatenation is the row list, every chunk has at most 100 rows and
every chunk but the last exactly 100); if all chunk upserts succeed it
returns `True` having sent every chunk; if chunk `i` is the first to fail,
it returns `False` having transmitted exactly chunks `0..i` -- no later
chunk is sent and the earlier ones stay sent (no rollback is modelled
because none is attempted, db_connector.py lines 142-168). -/
theorem claim_C9_chunked_upload (upsert : String → List Dict → Bool)
    (now tableName : String) (listings : List Dict) (h : listings ≠ []) :
    saveListings true upsert now tableName listings
        = sendLoop (upsert tableName) (chunks100 (formattedRows now listings)) ∧
    (chunks100 (formattedRows now listings)).flatten = formattedRows now listings ∧
    (∀ c ∈ chunks100 (formattedRows now listings), c.length ≤ 100) ∧
    (∀ c ∈ (chunks100 (formattedRows now listings)).dropLast, c.length = 100) ∧
    ((∀ c ∈ chunks100 (formattedRows now listings), upsert tableName c = true) →
      sendLoop (upsert tableName) (chunks100 (formattedRows now listings))
        = (true, chunks100 (formattedRows now listings))) ∧
    (∀ (i : ℕ) (hi : i < (chunks100 (formattedRows now listings)).length),
      upsert tableName ((chunks100 (formattedRows now listings)).get ⟨i, hi⟩) = false →
      (∀ (j : ℕ) (hj : j < i),
        upsert tableName
          ((chunks100 (formattedRows now listings)).get ⟨j, Nat.lt_trans hj hi⟩) = true) →
      sendLoop (upsert tableName) (chunks100 (formattedRows now listings))
        = (false, (chunks100 (formattedRows now listings)).take (i + 1))) := by
  refine ⟨?_, ?_, ?_, ?_, ?_, ?_⟩
  · cases listings with
    | nil => exact absurd rfl h
    | cons l t => rfl
  · exact chunksF_join _ _ (Nat.le_refl _)
  · intro c hc
    exact chunksF_length_le _ _ c hc
  · intro c hc
    exact chunksF_dropLast _ _ (Nat.le_refl _) c hc
  · intro hall
    exact sendLoop_all_true _ _ hall
  · intro i hi hfail hpre
    exact sendLoop_first_false _ _ i hi hfail hpre

/-- Witness for C9: 150 one-field listings form two chunks (100 and 50
rows); with a store that accepts only 100-row chunks, the second chunk is
the first failure, so exactly chunks 0 and 1 are transmitted and the call
reports failure. -/
theorem claim_C9_chunked_upload_witness :
    sendLoop ((fun _ c => c.length == 100) "property_listings")
        (chunks100 (formattedRows "T" (List.replicate 150 [("title", PyVal.vstr "A")])))
      = (false,
         (chunks100 (formattedRows "T" (List.replicate 150 [("title", PyVal.vstr "A")]))).take 2) := by
  have hne : List.replicate 150 [("title", PyVal.vstr "A")] ≠ ([] : List Dict) := by decide
  have hmain := claim_C9_chunked_upload (fun _ c => c.length == 100) "T" "property_listings"
    (List.replicate 150 [("title", PyVal.vstr "A")]) hne
  exact hmain.2.2.2.2.2 1 (by decide) (by decide)
    (fun j hj => by
      have hj0 : j = 0 := by omega
      subst hj0
      show ((fun _ c => c.length == 100) "property_listings")
          ((chunks100 (formattedRows "T" (List.replicate 150 [("title", PyVal.vstr "A")]))).get
            ⟨0, by decide⟩) = true
      decide)


/-! ### Lemmas about the column-padding step -/

theorem padRow_mem : ∀ (ks : List String) (r : Dict) (k : String),
    dmem (padRow ks r) k = true ↔ dmem r k = true ∨ k ∈ ks := by
  intro ks
  induction ks with
  | nil => intro r k; simp [padRow]
  | cons k0 t ih =>
    intro r k
    rw [show padRow (k0 :: t) r
        = padRow t (if dmem r k0 then r else dset r k0 PyVal.vnull) from rfl]
    by_cases h0 : dmem r k0 = true
    · rw [if_pos h0, ih]
      constructor
      · rintro (h | h)
        · exact Or.inl h
        · exact Or.inr (List.mem_cons_of_mem _ h)
      · rintro (h | h)
        · exact Or.inl h
        · rcases List.mem_cons.mp h with h1 | h1
          · subst h1; exact Or.inl h0
          · exact Or.inr h1
    · rw [if_neg h0, ih, dmem_dset]
      simp only [Bool.or_eq_true, beq_iff_eq, List.mem_cons]
      constructor
      · rintro ((h | h) | h)
        · exact Or.inl h
        · exact Or.inr (Or.inl h.symm)
        · exact Or.inr (Or.inr h)
      · rintro (h | h | h)
        · exact Or.inl (Or.inl h)
        · exact Or.inl (Or.inr h.symm)
        · exact Or.inr h

theorem innerKeys_subset (r : Dict) : ∀ (acc : List String) (k : String), k ∈ acc →
    k ∈ r.foldl (fun acc kv => if acc.contains kv.1 then acc else acc ++ [kv.1]) acc := by
  induction r with
  | nil => intro acc k h; exact h
  | cons kv t ih =>
    intro acc k h
    show k ∈ t.foldl _ (if acc.contains kv.1 then acc else acc ++ [kv.1])
    by_cases h1 : acc.contains kv.1 = true
    · rw [if_pos h1]
      exact ih acc k h
    · rw [if_neg h1]
      exact ih _ k (List.mem_append_left _ h)

theorem innerKeys_adds (r : Dict) : ∀ (acc : List String) (k : String), dmem r k = true →
    k ∈ r.foldl (fun acc kv => if acc.contains kv.1 then acc else acc ++ [kv.1]) acc := by
  induction r with
  | nil => intro acc k h; simp [dmem] at h
  | cons kv t ih =>
    intro acc k h
    rw [dmem_cons] at h
    show k ∈ t.foldl _ (if acc.contains kv.1 then acc else acc ++ [kv.1])
    rcases Bool.or_eq_true_iff.mp h with h2 | h2
    · have hk : kv.1 = k := by simpa using h2
      subst hk
      by_cases h1 : acc.contains kv.1 = true
      · rw [if_pos h1]
        exact innerKeys_subset t acc kv.1 (by simpa using h1)
      · rw [if_neg h1]
        exact innerKeys_subset t _ kv.1 (List.mem_append_right _ (List.mem_singleton.mpr rfl))
    · by_cases h1 : acc.contains kv.1 = true
      · rw [if_pos h1]
        exact ih acc k h2
      · rw [if_neg h1]
        exact ih _ k h2

theorem outerKeys_subset : ∀ (rows : List Dict) (acc : List String) (k : String), k ∈ acc →
    k ∈ rows.foldl
      (fun acc r => r.foldl (fun acc kv => if acc.contains kv.1 then acc else acc ++ [kv.1]) acc)
      acc := by
  intro rows
  induction rows with
  | nil => intro acc k h; exact h
  | cons r t ih =>
    intro acc k h
    exact ih _ k (innerKeys_subset r acc k h)

theorem unionKeys_mem_of : ∀ (rows : List Dict) (r : Dict), r ∈ rows →
    ∀ k, dmem r k = true → k ∈ unionKeys rows := by
  have aux : ∀ (rows : List Dict) (acc : List String) (r : Dict), r ∈ rows →
      ∀ k, dmem r k = true →
      k ∈ rows.foldl
        (fun acc r => r.foldl (fun acc kv => if acc.contains kv.1 then acc else acc ++ [kv.1]) acc)
        acc := by
    intro rows
    induction rows with
    | nil => intro acc r h; simp at h
    | cons r0 t ih =>
      intro acc r h k hk
      rcases List.mem_cons.mp h with h1 | h1
      · subst h1
        exact outerKeys_subset t _ k (innerKeys_adds r acc k hk)
      · exact ih _ r h1 k hk
  intro rows r h k hk
  exact aux rows [] r h k hk

/-- C8: after whitelist filtering and null-padding, every row `save_listings`
transmits for a batch has the same key set, and that key set is exactly
the union of the keys of the filtered rows of the batch
(db_connector.py lines 128-140). -/
theorem claim_C8_padded_column_sets (now : String) (listings : List Dict) (r : Dict)
    (hr : r ∈ formattedRows now listings) (k : String) :
    dmem r k = true ↔ k ∈ unionKeys (listings.map (formatRow now)) := by
  simp only [formattedRows, padAll] at hr
  obtain ⟨r0, hr0, rfl⟩ := List.mem_map.mp hr
  rw [padRow_mem]
  constructor
  · rintro (h | h)
    · exact unionKeys_mem_of _ r0 hr0 k h
    · exact h
  · intro h
    exact Or.inr h

/-- Witness for C8: a two-listing batch with different keys; the padded
first row carries the `price` column contributed only by the second
listing. -/
theorem claim_C8_padded_column_sets_witness :
    dmem [("title", PyVal.vstr "A"), ("created_at", PyVal.vstr "T"), ("price", PyVal.vnull)]
        "price" = true ↔
      "price" ∈ unionKeys ([[("title", PyVal.vstr "A")], [("price", PyVal.vstr "5")]].map
        (formatRow "T")) :=
  claim_C8_padded_column_sets "T" [[("title", PyVal.vstr "A")], [("price", PyVal.vstr "5")]]
    [("title", PyVal.vstr "A"), ("created_at", PyVal.vstr "T"), ("price", PyVal.vnull)]
    (by decide) "price"

end JapanHouse

namespace JapanHouse

/-- Counterexample to C1 as stated: a stored row id can be `0`, a falsy
Python value, and then `if args.update_existing and listing_id:` fails --
the listing whose `(source, source_id)` identity is known is *skipped*
(counter incremented), not placed in the update set, although
`update_mode` and `update_existing` are both set. -/
theorem claim_C1_counterexample :
    classifyStep (buildIndex [⟨0, "siteA", some "123", none⟩]) true
        ⟨[], [], 0⟩ [("source", PyVal.vstr "siteA"), ("source_id", PyVal.vstr "123")]
      = ⟨[], [], 1⟩ ∧
    (runClassification (buildIndex [⟨0, "siteA", some "123", none⟩]) true true
        [[("source", PyVal.vstr "siteA"), ("source_id", PyVal.vstr "123")]]).update_listings
      = [] := by
  exact ⟨rfl, rfl⟩

/-- C1 amended: for a listing with truthy `source_id` whose rendered
`(source, source_id)` key is in the identity index, *and whose resolved
stored row id is nonzero* (Python-truthy), `update_mode=true` with
`update_existing=true` classifies it UPDATE carrying that id;
`update_existing=false` classifies it SKIP, incrementing the skipped
counter by exactly 1; and `update_mode=false` leaves it in the NEW set
regardless of the index (scrape_to_supabase.py lines 193-226). -/
theorem claim_C1_amended (idx : IdentityIndex) (listing : Dict) (st : ClassifyState) (i : ℕ)
    (h1 : dmem listing "source_id" = true)
    (h2 : pyTruthy (dsub listing "source_id") = true)
    (h3 : idx.source_id_keys.contains
      (pyStr (dsub listing "source") ++ ":" ++ pyStr (dsub listing "source_id")) = true)
    (h4 : lookupNat idx.id_by_source_id
      (pyStr (dsub listing "source") ++ ":" ++ pyStr (dsub listing "source_id")) = some i)
    (h5 : i ≠ 0) :
    classifyStep idx true st listing
        = { st with update_listings := st.update_listings ++ [dset listing "id" (PyVal.vint i)] } ∧
    classifyStep idx false st listing
        = { st with total_skipped := st.total_skipped + 1 } ∧
    (∀ update_existing, runClassification idx false update_existing [listing]
        = ⟨[listing], [], 0⟩) := by
  have h3' : pyStr (dsub listing "source") ++ ":" ++ pyStr (dsub listing "source_id")
      ∈ idx.source_id_keys := by simpa using h3
  refine ⟨?_, ?_, fun _ => rfl⟩
  · simp [classifyStep, h1, h2, h3', h4, h5]
  · simp [classifyStep, h1, h2, h3', h4]

/-- Witness for the amended C1, on the spec's own example: existing
identity `("siteA","123") ↦ id 7`; the incoming listing is classified
UPDATE with id 7 under `update_existing`, SKIP (counter `0 → 1`) without
it, and stays NEW when `update_mode` is off. -/
theorem claim_C1_amended_witness :
    classifyStep (buildIndex [⟨7, "siteA", some "123", none⟩]) true ⟨[], [], 0⟩
        [("source", PyVal.vstr "siteA"), ("source_id", PyVal.vstr "123")]
      = ⟨[], [[("source", PyVal.vstr "siteA"), ("source_id", PyVal.vstr "123"),
              ("id", PyVal.vint 7)]], 0⟩ ∧
    classifyStep (buildIndex [⟨7, "siteA", some "123", none⟩]) false ⟨[], [], 0⟩
        [("source", PyVal.vstr "siteA"), ("source_id", PyVal.vstr "123")]
      = ⟨[], [], 1⟩ ∧
    runClassification (buildIndex [⟨7, "siteA", some "123", none⟩]) false true
        [[("source", PyVal.vstr "siteA"), ("source_id", PyVal.vstr "123")]]
      = ⟨[[("source", PyVal.vstr "siteA"), ("source_id", PyVal.vstr "123")]], [], 0⟩ := by
  have h := claim_C1_amended (buildIndex [⟨7, "siteA", some "123", none⟩])
    [("source", PyVal.vstr "siteA"), ("source_id", PyVal.vstr "123")] ⟨[], [], 0⟩ 7
    (by decide) (by decide) (by decide) (by decide) (by decide)
  exact ⟨h.1, h.2.1, h.2.2 true⟩

/-- C2 evaluated on the code: `clean_data` stores the page URL under
`source_url` and never emits a `url` key, while the duplicate check of
`run_scrapers_and_upload` reads `listing['url']` (line 209); hence a
normalized listing whose page URL is a stored url (and whose
`(source, source_id)` is not a known identity) is classified NEW -- it
lands in `new_listings` and is re-uploaded, with nothing skipped,
contradicting the claim (spec §4.4 rule 2). -/
theorem claim_C2_url_match_dead :
    cleanData "siteA" "T" [("url", PyVal.vstr "http://a/1"), ("title", PyVal.vstr "Nice")]
      = .ok [("source", PyVal.vstr "siteA"), ("source_url", PyVal.vstr "http://a/1"),
             ("scraped_at", PyVal.vstr "T"), ("title", PyVal.vstr "Nice")] ∧
    dmem [("source", PyVal.vstr "siteA"), ("source_url", PyVal.vstr "http://a/1"),
          ("scraped_at", PyVal.vstr "T"), ("title", PyVal.vstr "Nice")] "url" = false ∧
    (buildIndex [⟨7, "siteA", none, some "http://a/1"⟩]).url_keys = ["http://a/1"] ∧
    runClassification (buildIndex [⟨7, "siteA", none, some "http://a/1"⟩]) true true
        [[("source", PyVal.vstr "siteA"), ("source_url", PyVal.vstr "http://a/1"),
          ("scraped_at", PyVal.vstr "T"), ("title", PyVal.vstr "Nice")]]
      = ⟨[[("source", PyVal.vstr "siteA"), ("source_url", PyVal.vstr "http://a/1"),
           ("scraped_at", PyVal.vstr "T"), ("title", PyVal.vstr "Nice")]], [], 0⟩ := by
  exact ⟨rfl, rfl, rfl, rfl⟩

end JapanHouse

namespace JapanHouse

/-! ### Lemmas about `process_images` -/

theorem firstPass_nodup_go : ∀ (urls acc : List String), acc.Nodup →
    (urls.foldl
      (fun acc u =>
        if hasSkipPattern u then acc
        else if !(u == "") && !(acc.contains u) then acc ++ [u]
        else acc) acc).Nodup := by
  intro urls
  induction urls with
  | nil => intro acc h; exact h
  | cons u t ih =>
    intro acc h
    rw [List.foldl_cons]
    by_cases h1 : hasSkipPattern u = true
    · rw [if_pos h1]
      exact ih acc h
    · rw [if_neg h1]
      by_cases h2 : (!(u == "") && !(acc.contains u)) = true
      · rw [if_pos h2]
        refine ih _ ?_
        rw [List.nodup_append]
        have hu : u ∉ acc := by
          have := (Bool.and_eq_true _ _).mp h2
          simpa using this.2
        exact ⟨h, List.nodup_singleton u, by simpa [List.disjoint_singleton] using hu⟩
      · rw [if_neg h2]
        exact ih acc h

theorem firstPass_nodup (urls : List String) : (firstPass urls).Nodup :=
  firstPass_nodup_go urls [] List.nodup_nil

theorem firstPass_id_go : ∀ (urls acc : List String),
    (∀ u ∈ urls, hasSkipPattern u = false ∧ u ≠ "" ∧ u ∉ acc) → urls.Nodup →
    urls.foldl
      (fun acc u =>
        if hasSkipPattern u then acc
        else if !(u == "") && !(acc.contains u) then acc ++ [u]
        else acc) acc = acc ++ urls := by
  intro urls
  induction urls with
  | nil => intro acc _ _; simp
  | cons u t ih =>
    intro acc h hnd
    obtain ⟨hskip, hne, hmem⟩ := h u (List.mem_cons_self u t)
    rw [List.foldl_cons, if_neg (by simp [hskip]),
      if_pos (by simp [hne, hmem])]
    rw [ih (acc ++ [u]) ?_ (List.Nodup.of_cons hnd)]
    · simp
    · intro v hv
      obtain ⟨h1, h2, h3⟩ := h v (List.mem_cons_of_mem u hv)
      refine ⟨h1, h2, ?_⟩
      intro hmem2
      rcases List.mem_append.mp hmem2 with h4 | h4
      · exact h3 h4
      · have : v = u := List.mem_singleton.mp h4
        subst this
        exact (List.nodup_cons.mp hnd).1 hv

theorem highResPass_go : ∀ (urls acc : List String),
    urls.foldl (fun acc u => acc ++ [canonOne u]) acc = acc ++ urls.map canonOne := by
  intro urls
  induction urls with
  | nil => intro acc; simp
  | cons u t ih =>
    intro acc
    rw [List.foldl_cons, ih]
    simp

theorem highResPass_eq_map (urls : List String) :
    highResPass urls = urls.map canonOne := by
  have := highResPass_go urls []
  simpa [highResPass] using this

/-- C6: `process_images` is the identity on a listing whose `images`
value is a non-empty duplicate-free list of canonical URLs (non-empty
strings, no skip pattern, no `smallimg`+`file=` wrapper markers): same
list, same order, listing returned unchanged
(scrape_to_supabase.py lines 36-81). -/
theorem claim_C6_idempotent_on_canonical (listing : Dict) (urls : List String)
    (himg : dget listing "images" = some (PyVal.vlistS urls))
    (hne : urls ≠ [])
    (hcanon : ∀ u ∈ urls, canonicalUrl u)
    (hnd : urls.Nodup) :
    processImages listing = listing := by
  have htruthy : pyTruthy (PyVal.vlistS urls) = true := by
    simp [pyTruthy, hne]
  have h1 : firstPass urls = urls := by
    have := firstPass_id_go urls []
      (fun u hu => ⟨(hcanon u hu).2.1, (hcanon u hu).1, by simp⟩) hnd
    simpa [firstPass] using this
  have h2 : highResPass urls = urls := by
    rw [highResPass_eq_map]
    have : ∀ u ∈ urls, canonOne u = u := by
      intro u hu
      have hc := (hcanon u hu).2.2
      unfold canonOne
      rw [if_neg ?_]
      intro hand
      exact hc (by constructor <;> [exact (Bool.and_eq_true _ _).mp hand |>.1;
        exact (Bool.and_eq_true _ _).mp hand |>.2])
    calc urls.map canonOne = urls.map id := List.map_congr_left this
    _ = urls := List.map_id urls
  simp only [processImages, himg, htruthy]
  rw [h1, h2]
  simp only [ite_self, Bool.not_true, Bool.false_eq_true, if_false]
  exact dset_self listing "images" (PyVal.vlistS urls) himg

/-- Witness for C6: a two-URL canonical image list passes through
`process_images` unchanged. -/
theorem claim_C6_idempotent_on_canonical_witness :
    processImages [("title", PyVal.vstr "X"),
        ("images", PyVal.vlistS ["http://x/a.jpg", "http://x/b.jpg"])]
      = [("title", PyVal.vstr "X"),
         ("images", PyVal.vlistS ["http://x/a.jpg", "http://x/b.jpg"])] :=
  claim_C6_idempotent_on_canonical _ ["http://x/a.jpg", "http://x/b.jpg"]
    (by decide) (by decide) (by decide) (by decide)

end JapanHouse

namespace JapanHouse

/-- Counterexample to C5: the first pass deduplicates *before* the
smallimg substitution, so a bare original URL together with a wrapper
URL carrying it as `file=` parameter yields two equal URLs in the final
`images` list -- a post-canonicalization duplicate. -/
theorem claim_C5_counterexample :
    processImages
        [("images", PyVal.vlistS
          ["http://x/a.jpg", "http://p/smallimg?file=http://x/a.jpg"])]
      = [("images", PyVal.vlistS ["http://x/a.jpg", "http://x/a.jpg"])] ∧
    ¬ (["http://x/a.jpg", "http://x/a.jpg"] : List String).Nodup := by
  exact ⟨rfl, by decide⟩

/-- C5 amended: for a listing with a truthy `images` list, the final list
is the element-wise canonicalization of the first-pass list, and it is the
*first-pass* list (the skip-pattern-filtered, raw-deduplicated one) that
is duplicate-free; after wrapper substitution, duplicates can appear when
distinct raw URLs canonicalize to the same original
(scrape_to_supabase.py lines 36-81). -/
theorem claim_C5_amended (listing : Dict) (urls : List String)
    (himg : dget listing "images" = some (PyVal.vlistS urls))
    (hne : urls ≠ []) :
    processImages listing
        = dset listing "images" (PyVal.vlistS ((firstPass urls).map canonOne)) ∧
    (firstPass urls).Nodup := by
  have htruthy : pyTruthy (PyVal.vlistS urls) = true := by
    simp [pyTruthy, hne]
  refine ⟨?_, firstPass_nodup urls⟩
  simp only [processImages, himg, htruthy, Bool.not_true, Bool.false_eq_true, if_false]
  rw [highResPass_eq_map]
  by_cases hmt : (firstPass urls).map canonOne = []
  · have hfp : firstPass urls = [] := by
      cases hfp2 : firstPass urls with
      | nil => rfl
      | cons a t => rw [hfp2] at hmt; simp at hmt
    rw [hmt, hfp]
    simp
  · rw [if_pos (by simpa using hmt)]

/-- Witness for the amended C5 at the counterexample input: the final
list is the canonicalization of the first pass, which itself is
duplicate-free. -/
theorem claim_C5_amended_witness :
    processImages
        [("images", PyVal.vlistS
          ["http://x/a.jpg", "http://p/smallimg?file=http://x/a.jpg"])]
      = dset [("images", PyVal.vlistS
          ["http://x/a.jpg", "http://p/smallimg?file=http://x/a.jpg"])] "images"
          (PyVal.vlistS ((firstPass
            ["http://x/a.jpg", "http://p/smallimg?file=http://x/a.jpg"]).map canonOne)) ∧
    (firstPass ["http://x/a.jpg", "http://p/smallimg?file=http://x/a.jpg"]).Nodup :=
  claim_C5_amended _ ["http://x/a.jpg", "http://p/smallimg?file=http://x/a.jpg"]
    (by decide) (by decide)

end JapanHouse

namespace JapanHouse

/-- Folding a step function that ignores elements rejected by `p` is
unchanged by filtering those elements away. -/
theorem foldl_skip_filter {α β : Type} (f : β → α → β) (p : α → Bool)
    (h : ∀ b a, p a = false → f b a = b) :
    ∀ (l : List α) (b : β), l.foldl f b = (l.filter p).foldl f b := by
  intro l
  induction l with
  | nil => intro b; rfl
  | cons a t ih =>
    intro b
    rw [List.foldl_cons]
    by_cases hp : p a = true
    · rw [List.filter_cons_of_pos hp, List.foldl_cons, ih]
    · have hp' : p a = false := by simpa using hp
      rw [List.filter_cons_of_neg (by simp [hp']), h b a hp', ih]

/-- Counterexample to C7: the rent branch of `HomesScraper._extract_listings`
has no title/price/location retention guard -- an element matching none
of the title/price/location selectors still contributes a record (with
only `source`, a null `source_url`, `scraped_at` and an empty image
list). -/
theorem claim_C7_counterexample :
    homesRentExtract (fun s => s) "T"
        [⟨none, none, none, none, none, none, none, [], none, [], none⟩]
      = [[("source", PyVal.vstr "homes"), ("source_url", PyVal.vnull),
          ("scraped_at", PyVal.vstr "T"), ("images", PyVal.vlistS [])]] ∧
    dmem (homesRentRaw (fun s => s)
        ⟨none, none, none, none, none, none, none, [], none, [], none⟩) "title" = false ∧
    dmem (homesRentRaw (fun s => s)
        ⟨none, none, none, none, none, none, none, [], none, [], none⟩) "price" = false ∧
    dmem (homesRentRaw (fun s => s)
        ⟨none, none, none, none, none, none, none, [], none, [], none⟩) "location" = false := by
  exact ⟨rfl, rfl, rfl, rfl⟩

/-- C7 amended: the retention guard is per-extractor, not universal, and
where present it is an only-if filter.  The akiyamart extractor adds a
card's record *only if* one of {title, price, location} is truthy:
filtering guard-violating cards away leaves its output unchanged; the
homes fallback extractor adds a container's record *only if* a
qualifying link was found and a `price` or `title` key was set (key
presence -- an empty extracted title qualifies); the homes primary rent
extraction enforces no such guard (the counterexample retains a record
with all three absent).  Nothing stronger is claimed: a guard-passing
card can still be dropped when `clean_data` raises. -/
theorem claim_C7_amended (join : String → String) (now : String) :
    (∀ cards : List AkiyaCard,
      akiyaExtract join now cards
        = akiyaExtract join now (cards.filter (akiyaKeep join))) ∧
    (∀ items : List HomesFallbackItem,
      homesFallbackExtract join now items
        = homesFallbackExtract join now (items.filter (homesFallbackKeep join))) := by
  constructor
  · intro cards
    exact foldl_skip_filter _ (akiyaKeep join)
      (by
        intro b c hc
        simp only [akiyaKeep] at hc
        simp [hc]) cards []
  · intro items
    exact foldl_skip_filter _ (homesFallbackKeep join)
      (by
        intro b c hc
        cases hhref : c.chosenHref with
        | none => simp [hhref]
        | some h =>
          simp only [homesFallbackKeep, hhref] at hc
          simp [hhref, hc]) items []

end JapanHouse

namespace JapanHouse

/-! ### Lemmas about `clean_data` -/

theorem data_raw_append (x : String) :
    ("raw_" ++ x).data = 'r' :: 'a' :: 'w' :: '_' :: x.data := by
  cases x
  rfl

theorem raw_key_ne (x : String) (k : String)
    (hk : k.data.take 4 ≠ ['r', 'a', 'w', '_']) : ("raw_" ++ x) ≠ k := by
  intro h
  apply hk
  rw [← h, data_raw_append]
  rfl

theorem stdLoop_dget_ne (data : Dict) : ∀ (fs : List String) (c : Dict) (k : String),
    (∀ f ∈ fs, f ≠ k) →
    dget (fs.foldl
      (fun c f => match dget data f with | some v => dset c f v | none => c) c) k
      = dget c k := by
  intro fs
  induction fs with
  | nil => intro c k _; rfl
  | cons f t ih =>
    intro c k h
    rw [List.foldl_cons]
    have hf : f ≠ k := h f (List.mem_cons_self f t)
    have ht : ∀ f' ∈ t, f' ≠ k := fun f' hf' => h f' (List.mem_cons_of_mem f hf')
    cases hd : dget data f with
    | none => simpa [hd] using ih c k ht
    | some v =>
      have := ih (dset c f v) k ht
      simp only [hd] at *
      rw [this, dget_dset_ne c f k v hf]

theorem stdLoop_dmem_ne (data : Dict) : ∀ (fs : List String) (c : Dict) (k : String),
    (∀ f ∈ fs, f ≠ k) →
    dmem (fs.foldl
      (fun c f => match dget data f with | some v => dset c f v | none => c) c) k
      = dmem c k := by
  intro fs
  induction fs with
  | nil => intro c k _; rfl
  | cons f t ih =>
    intro c k h
    rw [List.foldl_cons]
    have hf : f ≠ k := h f (List.mem_cons_self f t)
    have ht : ∀ f' ∈ t, f' ≠ k := fun f' hf' => h f' (List.mem_cons_of_mem f hf')
    cases hd : dget data f with
    | none => simpa [hd] using ih c k ht
    | some v =>
      have := ih (dset c f v) k ht
      simp only [hd] at *
      rw [this, dmem_dset]
      have : (f == k) = false := by simpa using hf
      simp [this]

theorem rawLoop_dget_ne (k : String) (hk : ∀ x, ("raw_" ++ x) ≠ k) :
    ∀ (data : Dict) (c : Dict), dget (rawPrefixLoop c data) k = dget c k := by
  intro data
  induction data with
  | nil => intro c; rfl
  | cons kv t ih =>
    intro c
    show dget (t.foldl _
      (if dmem c kv.1 || kv.1 == "url" || kv.1 == "price" then c
       else dset c ("raw_" ++ kv.1) kv.2)) k = dget c k
    by_cases hc : (dmem c kv.1 || kv.1 == "url" || kv.1 == "price") = true
    · rw [if_pos hc]
      exact ih c
    · rw [if_neg hc]
      exact (ih (dset c ("raw_" ++ kv.1) kv.2)).trans (dget_dset_ne _ _ _ _ (hk kv.1))

theorem rawLoop_dmem_ne (k : String) (hk : ∀ x, ("raw_" ++ x) ≠ k) :
    ∀ (data : Dict) (c : Dict), dmem (rawPrefixLoop c data) k = dmem c k := by
  intro data
  induction data with
  | nil => intro c; rfl
  | cons kv t ih =>
    intro c
    show dmem (t.foldl _
      (if dmem c kv.1 || kv.1 == "url" || kv.1 == "price" then c
       else dset c ("raw_" ++ kv.1) kv.2)) k = dmem c k
    by_cases hc : (dmem c kv.1 || kv.1 == "url" || kv.1 == "price") = true
    · rw [if_pos hc]
      exact ih c
    · rw [if_neg hc]
      have h2 : dmem (dset c ("raw_" ++ kv.1) kv.2) k = dmem c k := by
        rw [dmem_dset]
        have hb : (("raw_" ++ kv.1) == k) = false := by simpa using hk kv.1
        simp [hb]
      exact (ih (dset c ("raw_" ++ kv.1) kv.2)).trans h2

end JapanHouse

namespace JapanHouse

/-- The standard-fields copy loop and the `raw_`-prefix loop never touch
the `price`/`price_raw` entries contributed by the price branch of
`clean_data`. -/
theorem cleanData_price_entries (name now : String) (data : Dict) (pr : Dict) :
    dget (rawPrefixLoop (stdFieldsLoop
        ([("source", PyVal.vstr name),
          ("source_url", (dget data "url").getD (PyVal.vstr "")),
          ("scraped_at", PyVal.vstr now)] ++ pr) data) data) "price"
      = dget pr "price" ∧
    dget (rawPrefixLoop (stdFieldsLoop
        ([("source", PyVal.vstr name),
          ("source_url", (dget data "url").getD (PyVal.vstr "")),
          ("scraped_at", PyVal.vstr now)] ++ pr) data) data) "price_raw"
      = dget pr "price_raw" ∧
    dmem (rawPrefixLoop (stdFieldsLoop
        ([("source", PyVal.vstr name),
          ("source_url", (dget data "url").getD (PyVal.vstr "")),
          ("scraped_at", PyVal.vstr now)] ++ pr) data) data) "price_raw"
      = dmem pr "price_raw" := by
  have hn1 : ∀ f ∈ standardFields, f ≠ "price" := by decide
  have hn2 : ∀ f ∈ standardFields, f ≠ "price_raw" := by decide
  have hr1 : ∀ x, ("raw_" ++ x) ≠ "price" := fun x => raw_key_ne x "price" (by decide)
  have hr2 : ∀ x, ("raw_" ++ x) ≠ "price_raw" := fun x => raw_key_ne x "price_raw" (by decide)
  have hc0g : ∀ pr' : Dict,
      dget (([("source", PyVal.vstr name),
          ("source_url", (dget data "url").getD (PyVal.vstr "")),
          ("scraped_at", PyVal.vstr now)] : Dict) ++ pr') "price" = dget pr' "price" := by
    intro pr'
    show dget (("source", PyVal.vstr name) :: ("source_url", _) :: ("scraped_at", _) :: pr')
      "price" = dget pr' "price"
    rw [dget_cons, dget_cons, dget_cons]
    simp
  have hc0g2 : ∀ pr' : Dict,
      dget (([("source", PyVal.vstr name),
          ("source_url", (dget data "url").getD (PyVal.vstr "")),
          ("scraped_at", PyVal.vstr now)] : Dict) ++ pr') "price_raw" = dget pr' "price_raw" := by
    intro pr'
    show dget (("source", PyVal.vstr name) :: ("source_url", _) :: ("scraped_at", _) :: pr')
      "price_raw" = dget pr' "price_raw"
    rw [dget_cons, dget_cons, dget_cons]
    simp
  have hc0m : ∀ pr' : Dict,
      dmem (([("source", PyVal.vstr name),
          ("source_url", (dget data "url").getD (PyVal.vstr "")),
          ("scraped_at", PyVal.vstr now)] : Dict) ++ pr') "price_raw" = dmem pr' "price_raw" := by
    intro pr'
    show dmem (("source", PyVal.vstr name) :: ("source_url", _) :: ("scraped_at", _) :: pr')
      "price_raw" = dmem pr' "price_raw"
    rw [dmem_cons, dmem_cons, dmem_cons]
    simp
  refine ⟨?_, ?_, ?_⟩
  · exact (rawLoop_dget_ne "price" hr1 data _).trans
      ((stdLoop_dget_ne data standardFields _ "price" hn1).trans (hc0g pr))
  · exact (rawLoop_dget_ne "price_raw" hr2 data _).trans
      ((stdLoop_dget_ne data standardFields _ "price_raw" hn2).trans (hc0g2 pr))
  · exact (rawLoop_dmem_ne "price_raw" hr2 data _).trans
      ((stdLoop_dmem_ne data standardFields _ "price_raw" hn2).trans (hc0m pr))

end JapanHouse

namespace JapanHouse

/-- Counterexample to C4: for the empty price string (the spec's own
example) `_extract_numeric_price` returns `None` without raising, so
`clean_data`'s `except` never fires: `price` is set to null but *no*
`price_raw` key is set.  And for a 310-digit price string the uncaught
`OverflowError` from `int(float(...))` escapes `clean_data` to the
caller. -/
theorem claim_C4_counterexample :
    cleanData "s" "T" [("price", PyVal.vstr "")]
      = .ok [("source", PyVal.vstr "s"), ("source_url", PyVal.vstr ""),
             ("scraped_at", PyVal.vstr "T"), ("price", PyVal.vnull)] ∧
    dmem [("source", PyVal.vstr "s"), ("source_url", PyVal.vstr ""),
          ("scraped_at", PyVal.vstr "T"), ("price", PyVal.vnull)] "price_raw" = false ∧
    cleanData "s" "T"
        [("price", PyVal.vstr (String.mk ('1' :: List.replicate 309 '0')))]
      = .error () := by
  exact ⟨rfl, rfl, rfl⟩

/-- C4 amended: for a record with a *string* price value, `clean_data`
raises (the uncaught `OverflowError`) exactly when the stripped numeral
overflows the double range; a parse failure (`None` from
`_extract_numeric_price`, e.g. `""` or `"1.2.3"`) yields `price = null`
with `price_raw` NOT set -- the inner `except ValueError` swallows the
failure before `clean_data`'s handler can see it; a successful parse
yields the integer, again without `price_raw`.  `price_raw` is set (with
`price = null`) exactly in the non-string case, where `re.sub` raises
`TypeError` into `clean_data`'s handler (base_scraper.py lines 64-71 and
106-130). -/
theorem claim_C4_amended (name now : String) (data : Dict) (v : PyVal)
    (hp : dget data "price" = some v) :
    (∀ s, v = PyVal.vstr s →
      (cleanData name now data = .error () ↔ extractNumericPrice s = .overflowErr) ∧
      (extractNumericPrice s = .nullP →
        ∃ out, cleanData name now data = .ok out ∧ dget out "price" = some PyVal.vnull ∧
          dmem out "price_raw" = false) ∧
      (∀ n, extractNumericPrice s = .price n →
        ∃ out, cleanData name now data = .ok out ∧ dget out "price" = some (PyVal.vint n) ∧
          dmem out "price_raw" = false)) ∧
    ((∀ s, v ≠ PyVal.vstr s) →
      ∃ out, cleanData name now data = .ok out ∧ dget out "price" = some PyVal.vnull ∧
        dget out "price_raw" = some v) := by
  constructor
  · rintro s rfl
    refine ⟨?_, ?_, ?_⟩
    · cases he : extractNumericPrice s with
      | price n => simp [cleanData, hp, pricePart, he]
      | nullP => simp [cleanData, hp, pricePart, he]
      | overflowErr => simp [cleanData, hp, pricePart, he]
    · intro he
      have hcd : cleanData name now data
          = .ok (rawPrefixLoop (stdFieldsLoop
              ([("source", PyVal.vstr name),
                ("source_url", (dget data "url").getD (PyVal.vstr "")),
                ("scraped_at", PyVal.vstr now)] ++ [("price", PyVal.vnull)]) data) data) := by
        simp [cleanData, hp, pricePart, he]
      refine ⟨_, hcd, ?_, ?_⟩
      · exact (cleanData_price_entries name now data [("price", PyVal.vnull)]).1
      · exact (cleanData_price_entries name now data [("price", PyVal.vnull)]).2.2
    · intro n he
      have hcd : cleanData name now data
          = .ok (rawPrefixLoop (stdFieldsLoop
              ([("source", PyVal.vstr name),
                ("source_url", (dget data "url").getD (PyVal.vstr "")),
                ("scraped_at", PyVal.vstr now)] ++ [("price", PyVal.vint n)]) data) data) := by
        simp [cleanData, hp, pricePart, he]
      refine ⟨_, hcd, ?_, ?_⟩
      · exact (cleanData_price_entries name now data [("price", PyVal.vint n)]).1
      · exact (cleanData_price_entries name now data [("price", PyVal.vint n)]).2.2
  · intro hs
    have hpp : pricePart v = .ok [("price", PyVal.vnull), ("price_raw", v)] := by
      cases v with
      | vstr s => exact absurd rfl (hs s)
      | vint n => rfl
      | vnull => rfl
      | vlistS xs => rfl
      | vbool b => rfl
    have hcd : cleanData name now data
        = .ok (rawPrefixLoop (stdFieldsLoop
            ([("source", PyVal.vstr name),
              ("source_url", (dget data "url").getD (PyVal.vstr "")),
              ("scraped_at", PyVal.vstr now)]
              ++ [("price", PyVal.vnull), ("price_raw", v)]) data) data) := by
      simp [cleanData, hp, hpp]
    refine ⟨_, hcd, ?_, ?_⟩
    · exact (cleanData_price_entries name now data
        [("price", PyVal.vnull), ("price_raw", v)]).1
    · exact (cleanData_price_entries name now data
        [("price", PyVal.vnull), ("price_raw", v)]).2.1

/-- Witness for the amended C4 at the empty price string: `clean_data`
succeeds with a null `price` and no `price_raw` key. -/
theorem claim_C4_amended_witness :
    ∃ out, cleanData "s" "T" [("price", PyVal.vstr "")] = .ok out ∧
      dget out "price" = some PyVal.vnull ∧ dmem out "price_raw" = false :=
  ((claim_C4_amended "s" "T" [("price", PyVal.vstr "")] (PyVal.vstr "")
    (by decide)).1 "" rfl).2.1 (by decide)

end JapanHouse

namespace JapanHouse

/-! ### Arithmetic lemmas for the price-extraction claims -/

theorem log2F_one (fuel : ℕ) : log2F fuel 1 = 0 := by
  cases fuel <;> rfl

theorem log2F_bracket : ∀ (fuel n : ℕ), 0 < n → n < 2 ^ fuel →
    2 ^ log2F fuel n ≤ n ∧ n < 2 ^ (log2F fuel n + 1) := by
  intro fuel
  induction fuel with
  | zero =>
    intro n h1 h2
    simp at h2
    omega
  | succ fuel ih =>
    intro n h1 h2
    cases n with
    | zero => omega
    | succ m =>
      have hred : log2F (fuel + 1) (m + 1)
          = if m + 1 < 2 then 0 else log2F fuel ((m + 1) / 2) + 1 := rfl
      by_cases hlt : m + 1 < 2
      · have hm : m = 0 := by omega
        subst hm
        rw [hred, if_pos hlt]
        constructor <;> simp
      · rw [hred, if_neg hlt]
        have hpow : 2 ^ (fuel + 1) = 2 * 2 ^ fuel := by
          rw [pow_succ]; ring
        have hhalf1 : 0 < (m + 1) / 2 := by omega
        have hhalf2 : (m + 1) / 2 < 2 ^ fuel := by omega
        obtain ⟨ha, hb⟩ := ih ((m + 1) / 2) hhalf1 hhalf2
        constructor
        · have : 2 ^ (log2F fuel ((m + 1) / 2) + 1)
              = 2 * 2 ^ log2F fuel ((m + 1) / 2) := by rw [pow_succ]; ring
          omega
        · have : 2 ^ (log2F fuel ((m + 1) / 2) + 1 + 1)
              = 2 * 2 ^ (log2F fuel ((m + 1) / 2) + 1) := by rw [pow_succ]; ring
          omega

theorem digitVal_le_nine (c : Char) (h : c.isDigit = true) : digitVal c ≤ 9 := by
  simp [Char.isDigit] at h
  obtain ⟨h1, h2⟩ := h
  have g1 : c.val.toNat ≤ 57 := h2
  have g2 : 48 ≤ c.val.toNat := h1
  have e1 : c.toNat = c.val.toNat := rfl
  have e2 : '0'.toNat = 48 := rfl
  simp [digitVal]
  omega

theorem natOfDigits_lt_pow : ∀ (cs : List Char) (a : ℕ),
    (∀ c ∈ cs, c.isDigit = true) →
    cs.foldl (fun a c => 10 * a + digitVal c) a < (a + 1) * 10 ^ cs.length := by
  intro cs
  induction cs with
  | nil => intro a _; simp
  | cons c t ih =>
    intro a h
    have hd : digitVal c ≤ 9 :=
      digitVal_le_nine c (h c (List.mem_cons_self c t))
    have ht := ih (10 * a + digitVal c) (fun c' hc' => h c' (List.mem_cons_of_mem c hc'))
    have hle : (10 * a + digitVal c + 1) * 10 ^ t.length ≤ (a + 1) * 10 ^ (t.length + 1) := by
      have : 10 * a + digitVal c + 1 ≤ 10 * (a + 1) := by omega
      calc (10 * a + digitVal c + 1) * 10 ^ t.length
          ≤ 10 * (a + 1) * 10 ^ t.length := Nat.mul_le_mul_right _ this
        _ = (a + 1) * 10 ^ (t.length + 1) := by rw [pow_succ]; ring
    rw [List.foldl_cons]
    calc t.foldl (fun a c => 10 * a + digitVal c) (10 * a + digitVal c)
        < (10 * a + digitVal c + 1) * 10 ^ t.length := ht
      _ ≤ (a + 1) * 10 ^ (t.length + 1) := hle
      _ = (a + 1) * 10 ^ (c :: t).length := by simp

theorem natOfDigits_lt (cs : List Char) (h : ∀ c ∈ cs, c.isDigit = true) :
    natOfDigits cs < 10 ^ cs.length := by
  have := natOfDigits_lt_pow cs 0 h
  simpa [natOfDigits] using this

theorem splitAtDot_no_dot : ∀ (cs : List Char), '.' ∉ cs → splitAtDot cs = (cs, []) := by
  intro cs
  induction cs with
  | nil => intro _; rfl
  | cons c t ih =>
    intro h
    have hc : (c == '.') = false := by
      have : c ≠ '.' := fun he => h (he ▸ List.mem_cons_self c t)
      simpa using this
    have ht : '.' ∉ t := fun he => h (List.mem_cons_of_mem c he)
    simp [splitAtDot, hc, ih ht]

theorem roundBinary64_of_small (F n : ℕ) (h1 : 0 < n) (h53 : n < 2 ^ 53) (hF : n < 2 ^ F) :
    roundBinary64 F n 1 = (n * 2 ^ (52 - log2F F n), (log2F F n : ℤ) - 52) := by
  obtain ⟨hl, hr⟩ := log2F_bracket F n h1 hF
  have ha52 : log2F F n ≤ 52 := by
    by_contra hgt
    push_neg at hgt
    have : 2 ^ 53 ≤ 2 ^ log2F F n := Nat.pow_le_pow_right (by omega) (by omega)
    omega
  have hne : (n == 0) = false := by simpa using Nat.pos_iff_ne_zero.mp h1
  unfold roundBinary64
  rw [hne]
  simp only [Bool.false_eq_true, if_false, log2F_one, Nat.cast_zero, sub_zero]
  have hge : gePow2 n 1 (log2F F n : ℤ) = true := by
    unfold gePow2
    rw [if_pos (by omega)]
    have htn : ((log2F F n : ℤ)).toNat = log2F F n := by omega
    rw [htn]
    simpa using hl
  rw [if_pos hge]
  have hp : max ((log2F F n : ℤ) - 52) (-1074) = (log2F F n : ℤ) - 52 := by omega
  rw [hp]
  have ht1 : (-((log2F F n : ℤ) - 52)).toNat = 52 - log2F F n := by omega
  have ht2 : ((log2F F n : ℤ) - 52).toNat = 0 := by omega
  rw [ht1, ht2]
  simp [Nat.mod_one, Nat.div_one]

theorem pyIntOfFloat_small (n a : ℕ) (ha : a ≤ 52) (hn : n < 2 ^ 53) :
    pyIntOfFloat (n * 2 ^ (52 - a)) ((a : ℤ) - 52) = .fin n := by
  by_cases h : a = 52
  · subst h
    have hz : (((52 : ℕ) : ℤ) - 52) = 0 := by norm_num
    rw [hz]
    unfold pyIntOfFloat
    rw [if_pos (by omega)]
    have ht : ((0 : ℤ)).toNat = 0 := rfl
    rw [ht]
    have hv : n * 2 ^ (52 - 52) * 2 ^ 0 = n := by norm_num
    rw [hv]
    rw [if_neg ?_]
    have : (2 : ℕ) ^ 53 < 2 ^ 1024 := Nat.pow_lt_pow_right (by omega) (by omega)
    omega
  · have hlt : a < 52 := by omega
    unfold pyIntOfFloat
    rw [if_neg (by omega)]
    have ht : (-((a : ℤ) - 52)).toNat = 52 - a := by omega
    rw [ht]
    congr 1
    exact Nat.mul_div_cancel n (Nat.pos_pow_of_pos _ (by omega))

end JapanHouse

namespace JapanHouse

theorem filterAny_digit (l : List Char) :
    (l.filter (fun c => c.isDigit || c == '.')).any Char.isDigit = l.any Char.isDigit := by
  induction l with
  | nil => rfl
  | cons c t ih =>
    by_cases hc : c.isDigit = true
    · simp [List.filter_cons, hc, ih]
    · have hpt : (c.isDigit || c == '.') = (c == '.') := by simp [hc]
      by_cases hd : (c == '.') = true
      · simp [List.filter_cons, hpt, hd, ih, hc]
      · simp [List.filter_cons, hpt, hd, ih, hc]

theorem string_toList_ne_nil (s : String) (h : s ≠ "") : s.toList ≠ [] := by
  intro hn
  apply h
  cases s with
  | mk d =>
    have hd : d = [] := hn
    subst hd
    rfl

theorem priceMatch_ne_null (x : FloatToInt) :
    (match x with
      | FloatToInt.fin n => PriceOut.price n
      | FloatToInt.inf => PriceOut.overflowErr) ≠ PriceOut.nullP := by
  cases x <;> simp

/-- Counterexample to C3 at two explicit inputs: `"1.2.3"` contains digit
characters yet normalizes to null (the stripped string `1.2.3` makes
`float()` raise `ValueError`, which the inner handler turns into `None`),
refuting the "null iff no digit characters" direction; and
`"9999999999999999"` yields `10000000000000000` -- `float()` rounds to the
nearest double *upward* here, so the result exceeds the positional
reading of the digits, refuting the "≤" bound. -/
theorem claim_C3_counterexample :
    (extractNumericPrice "1.2.3" = .nullP ∧
      "1.2.3".toList.any Char.isDigit = true) ∧
    (extractNumericPrice "9999999999999999" = .price 10000000000000000 ∧
      posReading "9999999999999999" = 9999999999999999 ∧
      9999999999999999 < 10000000000000000) := by
  exact ⟨⟨by decide, by decide⟩, ⟨by decide, by decide, by decide⟩⟩

/-- C3 amended: `_extract_numeric_price` yields null **iff** the input has
no digit characters or its stripped digits-and-dots form is not a
well-formed numeral (two or more dots); and on all-digit inputs whose
positional value is below `2^53` (exactly representable as a double) the
result is exactly that value.  Outside that range `int(float(...))`
rounds to the nearest double, which can exceed the positional reading,
and past the double range it raises instead of returning
(base_scraper.py lines 106-130). -/
theorem claim_C3_amended (s : String) :
    (extractNumericPrice s = .nullP ↔
      (s.toList.any Char.isDigit = false ∨ 2 ≤ (priceChars s).count '.')) ∧
    ((∀ c ∈ s.toList, c.isDigit = true) → s ≠ "" →
      natOfDigits s.toList < 2 ^ 53 →
      extractNumericPrice s = .price (natOfDigits s.toList)) := by
  have hany : (priceChars s).any Char.isDigit = s.toList.any Char.isDigit :=
    filterAny_digit s.toList
  constructor
  · unfold extractNumericPrice
    by_cases h1 : (priceChars s).isEmpty = true
    · rw [if_pos h1]
      have hnil : priceChars s = [] := by simpa using h1
      have : s.toList.any Char.isDigit = false := by
        rw [← hany, hnil]
        rfl
      exact iff_of_true rfl (Or.inl this)
    · rw [if_neg h1]
      by_cases h2 : wellFormedFloat (priceChars s) = true
      · rw [if_neg (by simp [h2])]
        have hwf := h2
        unfold wellFormedFloat at hwf
        rw [Bool.and_eq_true] at hwf
        have hcount : (priceChars s).count '.' ≤ 1 := by
          simpa using hwf.1
        have hdig : s.toList.any Char.isDigit = true := by
          rw [← hany]
          exact hwf.2
        have hR : ¬(s.toList.any Char.isDigit = false ∨ 2 ≤ (priceChars s).count '.') := by
          rintro (h | h)
          · rw [hdig] at h
            simp at h
          · omega
        exact iff_of_false (priceMatch_ne_null _) hR
      · rw [if_pos (by simp [h2])]
        refine iff_of_true rfl ?_
        unfold wellFormedFloat at h2
        rw [Bool.and_eq_true] at h2
        push_neg at h2
        by_cases hc : (priceChars s).count '.' ≤ 1
        · have hdig : (priceChars s).any Char.isDigit = false := by
            have := h2 (by simpa using hc)
            simpa using this
          exact Or.inl (by rw [← hany]; exact hdig)
        · exact Or.inr (by omega)
  · intro hd hne hlt
    have hfilter : priceChars s = s.toList := by
      unfold priceChars
      exact List.filter_eq_self.mpr (fun c hc => by simp [hd c hc])
    have hnil : s.toList ≠ [] := string_toList_ne_nil s hne
    have hnodot : '.' ∉ s.toList := by
      intro hdot
      have h9 := hd '.' hdot
      have h8 : ('.' : Char).isDigit = false := by decide
      rw [h9] at h8
      simp at h8
    have hsplit : splitAtDot s.toList = (s.toList, []) := splitAtDot_no_dot _ hnodot
    unfold extractNumericPrice
    rw [hfilter]
    rw [if_neg (by simpa [List.isEmpty_iff] using hnil)]
    have hwf : wellFormedFloat s.toList = true := by
      unfold wellFormedFloat
      rw [Bool.and_eq_true]
      constructor
      · have h0 : List.count '.' s.data = 0 := List.count_eq_zero.mpr hnodot
        simp [h0]
      · cases hl : s.toList with
        | nil => exact absurd hl hnil
        | cons c t =>
          have : c.isDigit = true := hd c (by rw [hl]; exact List.mem_cons_self c t)
          simp [this]
    have hwf2 : wellFormedFloat s.data = true := hwf
    rw [if_neg (by simp [hwf2])]
    rw [hsplit]
    simp only [List.append_nil, List.length_nil, pow_zero]
    have hF : natOfDigits s.toList < 2 ^ (4 * s.toList.length + 8) := by
      have h10 : natOfDigits s.toList < 10 ^ s.toList.length := natOfDigits_lt _ hd
      have h16 : (10 : ℕ) ^ s.toList.length ≤ 16 ^ s.toList.length :=
        Nat.pow_le_pow_left (by omega) _
      have h24 : (16 : ℕ) ^ s.toList.length = 2 ^ (4 * s.toList.length) := by
        rw [show (16 : ℕ) = 2 ^ 4 from rfl, ← pow_mul]
      have hmono : (2 : ℕ) ^ (4 * s.toList.length) < 2 ^ (4 * s.toList.length + 8) :=
        Nat.pow_lt_pow_right (by omega) (by omega)
      omega
    by_cases hz : natOfDigits s.toList = 0
    · rw [hz]
      have : roundBinary64 (4 * s.toList.length + 8) 0 1 = (0, 0) := rfl
      rw [this]
      rfl
    · have hpos : 0 < natOfDigits s.toList := Nat.pos_of_ne_zero hz
      rw [roundBinary64_of_small _ _ hpos hlt hF]
      rw [pyIntOfFloat_small _ _ ?_ hlt]
      have hbr := log2F_bracket (4 * s.toList.length + 8) (natOfDigits s.toList) hpos hF
      by_contra hgt
      push_neg at hgt
      have : 2 ^ 53 ≤ 2 ^ log2F (4 * s.toList.length + 8) (natOfDigits s.toList) :=
        Nat.pow_le_pow_right (by omega) (by omega)
      omega

/-- Witness for the amended C3: `"123"` has digits (the null-iff is
false on both sides) and, being all digits below `2^53`, extracts to
exactly `123`. -/
theorem claim_C3_amended_witness :
    extractNumericPrice "123" = .price (natOfDigits "123".toList) :=
  (claim_C3_amended "123").2 (by decide) (by decide) (by decide)

end JapanHouse
